import Mathlib

set_option maxHeartbeats 1000000

namespace H3Arrow

/- Shallow embedding of the h3arrow columnar H3-index containers and of the
algorithms operating on them.  The external h3o grid library and the
geo/rstar geometry crates are opaque collaborators of the code under
verification (spec section 1 treats them as already-correct opaque pure
functions); they are modelled as explicit function bundles that the embedded
operations receive as arguments.  Raw u64 values are modelled as Nat: the
column code never performs arithmetic on them, it only stores, compares and
(de)validates them. -/
/-- Model of the h3o index-value interface used by the column code
(trait H3IndexArrayValue together with TryFrom of u64 and Into of u64):
fallible validation (tryFromU64), the infallible bit reinterpretation used
after validation (transmuteFromU64) and the conversion back to the raw
value (toU64). -/
structure H3Model (IX : Type) where
  toU64 : IX → Nat
  tryFromU64 : Nat → Option IX
  transmuteFromU64 : Nat → IX

/-- struct H3Array of IX: a PrimitiveArray of u64 values with a validity
bitmap, modelled as one list holding some raw-value for valid positions and
none for null positions. -/
structure H3Array (IX : Type) where
  primitive_array : List (Option Nat)

namespace H3Array

variable {IX : Type}

/-- H3Array::len. -/
def len (a : H3Array IX) : Nat :=
  a.primitive_array.length

/-- H3Array::iter: iterates over values and validity as Options,
transmuting each stored raw value into the index type. -/
def iter (m : H3Model IX) (a : H3Array IX) : List (Option IX) :=
  a.primitive_array.map (fun h3index => h3index.map m.transmuteFromU64)

/-- H3Array::get: returns the element at position i or none when it is
null.  Out-of-range access (which panics in the source) is modelled as
none; the claims only access in-range positions. -/
def get (m : H3Model IX) (a : H3Array IX) (i : Nat) : Option IX :=
  ((a.primitive_array.get? i).getD none).map m.transmuteFromU64

end H3Array

/-- Body of impl TryFrom of Vec u64 for H3Array: validate every raw value,
mapping it through the index type and back to u64, collecting into a
Result that stops at the first invalid value (which it carries as the
error). -/
def collectValidated {IX : Type} (m : H3Model IX) : List Nat → Except Nat (List Nat)
  | [] => Except.ok []
  | h3index :: rest =>
    match m.tryFromU64 h3index with
    | some v => (collectValidated m rest).map (fun tl => m.toU64 v :: tl)
    | none => Except.error h3index

/-- impl TryFrom of Vec u64 for H3Array (the strict from_raw): all-or-nothing
validation of the raw values. -/
def tryFromVecU64 {IX : Type} (m : H3Model IX) (value : List Nat) : Except Nat (H3Array IX) :=
  (collectValidated m value).map (fun validated => { primitive_array := validated.map some })

/-- The try_for_each validation pass of impl TryFrom of PrimitiveArray u64:
checks that every non-null raw value decodes, stopping at the first invalid
one. -/
def validateAll {IX : Type} (m : H3Model IX) : List Nat → Except Nat Unit
  | [] => Except.ok ()
  | h3index :: rest =>
    match m.tryFromU64 h3index with
    | some _ => validateAll m rest
    | none => Except.error h3index

/-- impl TryFrom of PrimitiveArray u64 for H3Array (strict, null-preserving):
validates the flattened (non-null) values and on success wraps the array
unchanged. -/
def tryFromPrimitiveArray {IX : Type} (m : H3Model IX) (value : List (Option Nat)) :
    Except Nat (H3Array IX) :=
  (validateAll m (value.filterMap id)).map (fun _ => ({ primitive_array := value } : H3Array IX))

/-- impl From of Vec IX for H3Array via FromIterator: stores each index
back as its u64 value, all positions valid. -/
def h3ArrayFromVec {IX : Type} (m : H3Model IX) (value : List IX) : H3Array IX :=
  { primitive_array := value.map (fun v => some (m.toU64 v)) }

/-- Boolean success test of a Result value. -/
def isOkE {ε α : Type} : Except ε α → Bool
  | Except.ok _ => true
  | Except.error _ => false

/-- Model of the h3o CellIndex interface used by change_resolution:
resolution lookup, descendants at a finer resolution and the (optional)
ancestor at a coarser resolution, all opaque external grid mathematics. -/
structure CellModel (IX : Type) extends H3Model IX where
  resolution : IX → Nat
  children : IX → Nat → List IX
  parent : IX → Nat → Option IX

variable {IX : Type}

/-- fn extend_with_cell: dispatch on the comparison of the cell resolution
with the target resolution, extending the output vector with the children,
the cell itself, or the optional parent. -/
def extend_with_cell (m : CellModel IX) (out_vec : List IX) (cell : IX)
    (target_resolution : Nat) : List IX :=
  match compare (m.resolution cell) target_resolution with
  | Ordering.lt => out_vec ++ m.children cell target_resolution
  | Ordering.eq => out_vec ++ [cell]
  | Ordering.gt => out_vec ++ (m.parent cell target_resolution).toList

/-- self.iter().flatten(): the valid cells of the column, in order, null
positions omitted. -/
def validCells (m : CellModel IX) (a : H3Array IX) : List IX :=
  (a.iter m.toH3Model).filterMap id

/-- ChangeResolutionOp::change_resolution.  The final
out_vec.try_into().unwrap() resolves to the blanket TryFrom obtained from
impl From of Vec IX for H3Array (error type Infallible), so it performs no
re-validation and the unwrap cannot panic; the Ok wrapper is kept to match
the Result-valued signature. -/
def change_resolution (m : CellModel IX) (a : H3Array IX) (resolution : Nat) :
    Except Nat (H3Array IX) :=
  let out_vec := (validCells m a).foldl
    (fun acc cell => extend_with_cell m acc cell resolution) []
  Except.ok (h3ArrayFromVec m.toH3Model out_vec)

/-- struct ChangedResolutionPair. -/
structure ChangedResolutionPair (T : Type) where
  before : T
  after : T

/-- The loop body of change_resolution_paired: extend the after vector
with the cell's block and repeat the cell in the before vector once per
element the block added (repeat(cell).take(after_vec.len() - len_before)). -/
def pairedStep (m : CellModel IX) (resolution : Nat) (bv_av : List IX × List IX)
    (cell : IX) : List IX × List IX :=
  let len_before := bv_av.2.length
  let after_vec := extend_with_cell m bv_av.2 cell resolution
  (bv_av.1 ++ List.replicate (after_vec.length - len_before) cell, after_vec)

/-- ChangeResolutionOp::change_resolution_paired: same traversal, but the
before vector receives the input cell repeated once per after-element the
cell produced.  The final conversions are again the infallible From of
Vec IX. -/
def change_resolution_paired (m : CellModel IX) (a : H3Array IX) (resolution : Nat) :
    Except Nat (ChangedResolutionPair (H3Array IX)) :=
  let p := (validCells m a).foldl (pairedStep m resolution) ([], [])
  Except.ok { before := h3ArrayFromVec m.toH3Model p.1,
              after := h3ArrayFromVec m.toH3Model p.2 }

/-- The per-cell output block, written the way the spec describes it: all
descendants at the target resolution when the cell is coarser, the cell
itself when equal, the optional ancestor when finer. -/
def resBlock (m : CellModel IX) (cell : IX) (r : Nat) : List IX :=
  if m.resolution cell < r then m.children cell r
  else if m.resolution cell = r then [cell]
  else (m.parent cell r).toList

/-- The before/after relation claimed by C3: equal cells at equal
resolution, a descendant when the before cell is coarser than the target,
the ancestor when it is finer. -/
def pairedRel (m : CellModel IX) (r : Nat) (b a : IX) : Prop :=
  if m.resolution b < r then a ∈ m.children b r
  else if m.resolution b = r then a = b
  else m.parent b r = some a

/- Ragged list arrays (src/array/list.rs): the append-only
ListArrayBuilder / H3ListArrayBuilder and the finished arrow ListArray
with its offsets buffer, flat values buffer and optional outer validity. -/
/-- One step of the append-only ragged-list builder protocol. -/
inductive BuilderOp (IX : Type) where
  | push_valid (vs : List IX)
  | push_invalid

/-- struct ListArrayBuilder: flat values, per-outer-element offsets and
outer validity bits accumulated so far. -/
structure ListArrayBuilder where
  values : List Nat
  offsets : List Nat
  list_validity : List Bool

/-- ListArrayBuilder::push_invalid: record the current flat length as the
outer element's offset, mark it null, contribute no values. -/
def ListArrayBuilder.push_invalid (b : ListArrayBuilder) : ListArrayBuilder :=
  { values := b.values, offsets := b.offsets ++ [b.values.length],
    list_validity := b.list_validity ++ [false] }

/-- ListArrayBuilder::push_valid: record the current flat length as the
outer element's offset, append the items, mark the element valid (also
when zero items are appended). -/
def ListArrayBuilder.push_valid (b : ListArrayBuilder) (it : List Nat) : ListArrayBuilder :=
  { values := b.values ++ it, offsets := b.offsets ++ [b.values.length],
    list_validity := b.list_validity ++ [true] }

/-- The finished arrow ListArray: offsets buffer (outer length + 1), flat
values buffer and optional outer validity (none when every outer element
is valid). -/
structure BuiltListArray where
  offsets : List Nat
  values : List Nat
  validity : Option (List Bool)

/-- The monotonicity check OffsetsBuffer::try_from performs on the offsets
vector (offsets are Nat here, so non-negativity is inherent). -/
def offsetsMonotone : List Nat → Bool
  | [] => false
  | [_] => true
  | a :: b :: rest => decide (a ≤ b) && offsetsMonotone (b :: rest)

/-- ListArrayBuilder::build: append the final offset, run the structural
checks of OffsetsBuffer::try_from and ListArray::try_new, and convert the
validity bits (none when no bit is unset). -/
def ListArrayBuilder.build (b : ListArrayBuilder) : Option BuiltListArray :=
  let offsets := b.offsets ++ [b.values.length]
  if offsetsMonotone offsets && decide (offsets.getLastD 0 ≤ b.values.length)
      && decide (b.list_validity.length + 1 = offsets.length) then
    some { offsets := offsets, values := b.values,
           validity :=
             if b.list_validity.all (fun x => x) then none else some b.list_validity }
  else none

/-- Outer length of a list array (offsets length minus one). -/
def BuiltListArray.len (l : BuiltListArray) : Nat :=
  l.offsets.length - 1

/-- Arrow list-array element access as performed by GenericListArray::iter:
none for a null outer element, otherwise the slice of the flat values
buffer between consecutive offsets. -/
def BuiltListArray.sub (l : BuiltListArray) (i : Nat) : Option (List Nat) :=
  if (l.validity.map (fun v => v.getD i false)).getD true then
    some ((l.values.drop (l.offsets.getD i 0)).take
      (l.offsets.getD (i + 1) 0 - l.offsets.getD i 0))
  else none

/-- H3ListArrayBuilder::push_valid / push_invalid driven by a list of
builder operations: push_valid converts each index into its u64 value
before delegating to the inner builder. -/
def runOps (m : H3Model IX) (ops : List (BuilderOp IX)) : ListArrayBuilder :=
  ops.foldl
    (fun b op =>
      match op with
      | BuilderOp.push_valid vs => b.push_valid (vs.map m.toU64)
      | BuilderOp.push_invalid => b.push_invalid)
    { values := [], offsets := [], list_validity := [] }

/-- The validating conversion (TryFrom of UInt64Array) that
H3ListArray::iter_arrays applies to every sub-array it yields. -/
def tryFromUInt64Array (m : H3Model IX) (vals : List Nat) : Except Nat (H3Array IX) :=
  tryFromPrimitiveArray m (vals.map some)

/-- H3ListArray::iter_arrays: one item per outer position, none for null
outer elements, otherwise the validated sub-column. -/
def iter_arrays (m : H3Model IX) (l : BuiltListArray) :
    List (Option (Except Nat (H3Array IX))) :=
  (List.range l.len).map (fun i => (l.sub i).map (fun vals => tryFromUInt64Array m vals))

/-- The u64 payload a builder operation appends to the flat values buffer. -/
def opPayload (m : H3Model IX) : BuilderOp IX → List Nat
  | BuilderOp.push_valid vs => vs.map m.toU64
  | BuilderOp.push_invalid => []

/-- The outer validity bit a builder operation records. -/
def opValid {IX : Type} : BuilderOp IX → Bool
  | BuilderOp.push_valid _ => true
  | BuilderOp.push_invalid => false

/-- Concatenated flat payload of a sequence of builder operations. -/
def opsFlat (m : H3Model IX) (ops : List (BuilderOp IX)) : List Nat :=
  (ops.map (opPayload m)).join

/- Grid-disk aggregation (src/algorithm/grid.rs): grid_disk_aggregate_k
collects the (neighbor, distance) pairs of every valid input cell into a
hash map, keeping the Min or Max distance per neighbor cell.  The hash map
with its Entry API is modelled as an association list (first match wins,
vacant inserts append); iteration order of the Rust hash map is
unspecified, the association-list order is one admissible order and all
claimed properties are order-independent. -/
/-- enum KAggregationMethod. -/
inductive KAggregationMethod where
  | Min
  | Max

/-- Hash-map lookup on the association-list model. -/
def alLookup {IX : Type} [DecidableEq IX] : List (IX × Nat) → IX → Option Nat
  | [], _ => none
  | (k, v) :: rest, key => if k = key then some v else alLookup rest key

/-- Occupied-entry insert: replace the value stored under an existing key. -/
def alSet {IX : Type} [DecidableEq IX] : List (IX × Nat) → IX → Nat → List (IX × Nat)
  | [], _, _ => []
  | (k, v) :: rest, key, val =>
    if k = key then (k, val) :: rest else (k, v) :: alSet rest key val

/-- The Min/Max dispatch of the Entry arm of grid_disk_aggregate_k. -/
def kAggCombine (k_agg_method : KAggregationMethod) (d0 d : Nat) : Nat :=
  match k_agg_method with
  | KAggregationMethod.Min => min d0 d
  | KAggregationMethod.Max => max d0 d

/-- The Entry match in the inner loop of grid_disk_aggregate_k: update the
cell map with one (grid_cell, grid_distance) pair, combining with the
method's min or max on an occupied entry. -/
def aggUpdate {IX : Type} [DecidableEq IX] (k_agg_method : KAggregationMethod)
    (cellmap : List (IX × Nat)) (p : IX × Nat) : List (IX × Nat) :=
  match alLookup cellmap p.1 with
  | some d0 => alSet cellmap p.1 (kAggCombine k_agg_method d0 p.2)
  | none => cellmap ++ [(p.1, p.2)]

/-- GridOp::grid_disk_aggregate_k: fold every (neighbor, distance) pair of
every valid input cell (produced by the external grid_disk_distances
primitive) into the cell map, then dump the map into two parallel flat
columns. -/
def grid_disk_aggregate_k {IX : Type} [DecidableEq IX] (m : H3Model IX)
    (gridDiskDistances : IX → Nat → List (IX × Nat))
    (a : H3Array IX) (k : Nat) (k_agg_method : KAggregationMethod) :
    List IX × List Nat :=
  let cellmap := ((a.iter m).filterMap id).foldl
    (fun cellmap cell =>
      (gridDiskDistances cell k).foldl (aggUpdate k_agg_method) cellmap)
    []
  (cellmap.map Prod.fst, cellmap.map Prod.snd)

/-- All grid distances at which the cell c is reached from any valid input
cell: the multiset of occurrences of c in the disk expansions. -/
def occurrences {IX : Type} [DecidableEq IX] (m : H3Model IX)
    (gridDiskDistances : IX → Nat → List (IX × Nat))
    (a : H3Array IX) (k : Nat) (c : IX) : List Nat :=
  (((((a.iter m).filterMap id).map (fun seed => gridDiskDistances seed k)).join).filter
    (fun p => decide (p.1 = c))).map Prod.snd

/-- d is the Min- respectively Max-aggregate of the occurrence list l. -/
def aggIs (k_agg_method : KAggregationMethod) (d : Nat) (l : List Nat) : Prop :=
  d ∈ l ∧ ∀ x ∈ l,
    match k_agg_method with
    | KAggregationMethod.Min => d ≤ x
    | KAggregationMethod.Max => x ≤ d

/-- Aggregation invariant tying the cell map to the occurrence function O:
keys are unique, every stored distance is the aggregate of the occurrences
processed so far, absent keys have no occurrence yet. -/
def aggInv {IX : Type} [DecidableEq IX] (k_agg_method : KAggregationMethod)
    (O : IX → List Nat) (cellmap : List (IX × Nat)) : Prop :=
  (cellmap.map Prod.fst).Nodup ∧
  (∀ c d, alLookup cellmap c = some d → aggIs k_agg_method d (O c)) ∧
  (∀ c, alLookup cellmap c = none → O c = [])

/- Spatial index (src/spatial_index.rs): an R-tree over the axis-aligned
bounding rectangles of the decoded geometries.  Coordinates are modelled
as exact rationals; the rstar tree is modelled as the list of inserted
(rectangle, position) entries, and the tree queries as filters over that
list (rstar yields the same entry set, merely in an unspecified order, and
every claimed property is independent of that order). -/
/-- An axis-aligned rectangle given by its corner coordinates. -/
structure RatRect where
  minX : ℚ
  minY : ℚ
  maxX : ℚ
  maxY : ℚ
  deriving DecidableEq

/-- A point coordinate. -/
structure RatCoord where
  x : ℚ
  y : ℚ
  deriving DecidableEq

/-- The AABB intersection test rstar uses for
locate_in_envelope_intersecting (closed envelopes, per-axis overlap). -/
def aabbIntersects (a b : RatRect) : Bool :=
  decide (a.minX ≤ b.maxX) && decide (b.minX ≤ a.maxX)
    && decide (a.minY ≤ b.maxY) && decide (b.minY ≤ a.maxY)

/-- Squared euclidean distance from a point to the nearest point of a
rectangle: rstar's distance_2 for the Rectangle primitive, the measure
locate_within_distance compares against its max_squared_radius argument. -/
def nearestDist2 (c : RatCoord) (r : RatRect) : ℚ :=
  (max (max (r.minX - c.x) (c.x - r.maxX)) 0) * (max (max (r.minX - c.x) (c.x - r.maxX)) 0)
    + (max (max (r.minY - c.y) (c.y - r.maxY)) 0) * (max (max (r.minY - c.y) (c.y - r.maxY)) 0)

/-- Model of the geometry side of one index kind: the optional bounding
rectangle used for tree insertion (RectIndexable::spatial_index_rect), the
exact stage-2 test (RectIndexable::intersects_with_polygon), and the
bounding rectangle of a polygon of the abstract type P (geo BoundingRect). -/
structure GeomModel (IX P : Type) where
  spatial_index_rect : IX → Option RatRect
  intersects_with_polygon : IX → P → Bool
  polyBoundingRect : P → Option RatRect

/-- struct SpatialIndex: the owned column together with the bulk-loaded
R-tree, modelled as the list of (bounding box, source position) entries. -/
structure SpatialIndexM (IX : Type) where
  array : H3Array IX
  entries : List (RatRect × Nat)

/-- impl From of H3Array for SpatialIndex: for each valid position whose
decoded geometry yields a bounding rectangle, insert (rectangle, position)
into the tree; null positions and positions without a rectangle are
omitted. -/
def spatialIndexFrom {IX P : Type} (m : H3Model IX) (g : GeomModel IX P)
    (array : H3Array IX) : SpatialIndexM IX :=
  { array := array,
    entries := (array.iter m).enum.filterMap (fun pe =>
      match pe.2 with
      | some index => (g.spatial_index_rect index).map (fun rect => (rect, pe.1))
      | none => none) }

/-- fn negative_mask: an all-false mask of the given size. -/
def negative_mask (size : Nat) : List Bool :=
  List.replicate size false

/-- SpatialIndex::intersect_impl: for every tree entry whose rectangle
intersects the query envelope, if the position holds a value and its mask
bit is not yet set and the detailed check passes, set the mask bit. -/
def intersect_impl {IX : Type} (m : H3Model IX) (s : SpatialIndexM IX) (rect : RatRect)
    (mask : List Bool) (detailed_check : IX → Bool) : List Bool :=
  (s.entries.filter (fun e => aabbIntersects e.1 rect)).foldl
    (fun mask e =>
      match s.array.get m e.2 with
      | some value =>
        if !(mask.getD e.2 false) && detailed_check value then mask.set e.2 true else mask
      | none => mask)
    mask

/-- SpatialIndex::intersect_envelopes. -/
def intersect_envelopes {IX : Type} (m : H3Model IX) (s : SpatialIndexM IX)
    (rect : RatRect) : List Bool :=
  intersect_impl m s rect (negative_mask s.array.len) (fun _ => true)

/-- SpatialIndex::intersect_polygon: stage 1 queries the tree with the
polygon's bounding rectangle (when it has one), stage 2 applies the
kind-specific exact test. -/
def intersect_polygon {IX P : Type} (m : H3Model IX) (g : GeomModel IX P)
    (s : SpatialIndexM IX) (poly : P) : List Bool :=
  let mask := negative_mask s.array.len
  match g.polyBoundingRect poly with
  | some poly_rect =>
    intersect_impl m s poly_rect mask (fun ix => g.intersects_with_polygon ix poly)
  | none => mask

/-- SpatialIndex::intersect_multipolygon: run the per-polygon two-stage
filter over the same mask for each constituent polygon. -/
def intersect_multipolygon {IX P : Type} (m : H3Model IX) (g : GeomModel IX P)
    (s : SpatialIndexM IX) (mpoly : List P) : List Bool :=
  mpoly.foldl
    (fun mask poly =>
      match g.polyBoundingRect poly with
      | some poly_rect =>
        intersect_impl m s poly_rect mask (fun ix => g.intersects_with_polygon ix poly)
      | none => mask)
    (negative_mask s.array.len)

/-- SpatialIndex::envelopes_within_distance: stage-1-only query; set the
mask bit of every entry whose rectangle's nearest point lies within the
given squared-distance bound of the coordinate. -/
def envelopes_within_distance {IX : Type} (m : H3Model IX) (s : SpatialIndexM IX)
    (coord : RatCoord) (distance : ℚ) : List Bool :=
  (s.entries.filter (fun e => decide (nearestDist2 coord e.1 ≤ distance))).foldl
    (fun mask e => mask.set e.2 true)
    (negative_mask s.array.len)

/-- The geometric primitives h3o and geo provide for cells: the decoded
cell geometry (to_geom as a value of the abstract type G), the centroid
(LatLng::from of the cell as a Coord), and the polygon intersection tests
with a coordinate and with a geometry. -/
structure CellGeomModel (IX P G : Type) where
  to_geom : IX → G
  centroid : IX → RatCoord
  polyIntersectsCoord : P → RatCoord → Bool
  polyIntersectsGeom : P → G → Bool

/-- impl RectIndexable for CellIndex, fn intersects_with_polygon: the
cheaper centroid containment check runs first, and the polygon/polygon
comparison runs only when the centroid test is positive; a negative
centroid test returns false directly. -/
def cellIntersectsWithPolygon {IX P G : Type} (cg : CellGeomModel IX P G)
    (cell : IX) (poly : P) : Bool :=
  if cg.polyIntersectsCoord poly (cg.centroid cell) then
    cg.polyIntersectsGeom poly (cg.to_geom cell)
  else
    false

/-- Whether a tree entry can contribute a true mask bit: its position
holds a value that passes the detailed check. -/
def entryHit {IX : Type} (m : H3Model IX) (s : SpatialIndexM IX) (detailed_check : IX → Bool)
    (e : RatRect × Nat) : Bool :=
  match s.array.get m e.2 with
  | some value => detailed_check value
  | none => false

/-- Whether position i receives a true bit from the two-stage polygon
filter: some tree entry at position i has a rectangle overlapping the
polygon's bounding rectangle and passes the exact stage-2 test. -/
def polyHit {IX P : Type} (m : H3Model IX) (g : GeomModel IX P) (s : SpatialIndexM IX)
    (poly : P) (i : Nat) : Bool :=
  match g.polyBoundingRect poly with
  | some poly_rect =>
    (s.entries.filter (fun e => aabbIntersects e.1 poly_rect)).any
      (fun e => decide (e.2 = i) &&
        entryHit m s (fun ix => g.intersects_with_polygon ix poly) e)
  | none => false

/-- intersect_impl instrumented with the list of positions at which the
detailed check is invoked; the && of the source short-circuits, so the
check runs exactly when the mask bit is still false. -/
def intersect_impl_traced {IX : Type} (m : H3Model IX) (s : SpatialIndexM IX) (rect : RatRect)
    (mask : List Bool) (detailed_check : IX → Bool) : List Bool × List Nat :=
  (s.entries.filter (fun e => aabbIntersects e.1 rect)).foldl
    (fun mt e =>
      match s.array.get m e.2 with
      | some value =>
        if !(mt.1.getD e.2 false) then
          (if detailed_check value then mt.1.set e.2 true else mt.1, mt.2 ++ [e.2])
        else mt
      | none => mt)
    (mask, [])

/-- The multipolygon fold body started from an arbitrary mask. -/
def multiFoldFrom {IX P : Type} (m : H3Model IX) (g : GeomModel IX P) (s : SpatialIndexM IX)
    (mpoly : List P) (mask : List Bool) : List Bool :=
  mpoly.foldl
    (fun mask poly =>
      match g.polyBoundingRect poly with
      | some poly_rect =>
        intersect_impl m s poly_rect mask (fun ix => g.intersects_with_polygon ix poly)
      | none => mask)
    mask

/-- One polygon step of the traced multipolygon run: advance the mask
with the traced two-stage filter and append that pass's tested-position
list (an empty list for a polygon without a bounding rectangle). -/
def tmStep {IX P : Type} (m : H3Model IX) (g : GeomModel IX P) (s : SpatialIndexM IX)
    (acc : List Bool × List (List Nat)) (poly : P) : List Bool × List (List Nat) :=
  match g.polyBoundingRect poly with
  | some poly_rect =>
    ((intersect_impl_traced m s poly_rect acc.1
        (fun ix => g.intersects_with_polygon ix poly)).1,
      acc.2 ++ [(intersect_impl_traced m s poly_rect acc.1
        (fun ix => g.intersects_with_polygon ix poly)).2])
  | none => (acc.1, acc.2 ++ [[]])

/-- intersect_multipolygon instrumented with the per-polygon lists of
stage-2-tested positions. -/
def intersect_multipolygon_traced {IX P : Type} (m : H3Model IX) (g : GeomModel IX P)
    (s : SpatialIndexM IX) (mpoly : List P) : List Bool × List (List Nat) :=
  mpoly.foldl (tmStep m g s) (negative_mask s.array.len, [])

/-- Toy h3o model over a unit index type: every raw value validates. -/
def exModelU : H3Model Unit :=
  { toU64 := fun _ => 0, tryFromU64 := fun _ => some (), transmuteFromU64 := fun _ => () }

/-- One-element column for the spatial counterexamples. -/
def exArray1 : H3Array Unit :=
  { primitive_array := [some 0] }

/-- Stored rectangle for the distance counterexample: nearest point (2, 0),
at euclidean distance exactly 2 from the origin. -/
def exRect9 : RatRect :=
  { minX := 2, minY := 0, maxX := 3, maxY := 1 }

/-- Geometry model inserting exRect9 for the single cell. -/
def exGeom9 : GeomModel Unit Unit :=
  { spatial_index_rect := fun _ => some exRect9,
    intersects_with_polygon := fun _ _ => true,
    polyBoundingRect := fun _ => none }

/-- Cell geometry for the C1 counterexample: the cell decodes to the
square with corners (0, 0) and (4, 4), its centroid is (2, 2), polygons
are axis-aligned rectangles, point containment and rectangle overlap are
the exact tests. -/
def exCellGeom : CellGeomModel Unit RatRect RatRect :=
  { to_geom := fun _ => { minX := 0, minY := 0, maxX := 4, maxY := 4 },
    centroid := fun _ => { x := 2, y := 2 },
    polyIntersectsCoord := fun p c =>
      decide (p.minX ≤ c.x) && decide (c.x ≤ p.maxX)
        && decide (p.minY ≤ c.y) && decide (c.y ≤ p.maxY),
    polyIntersectsGeom := fun p g0 => aabbIntersects p g0 }

/-- Query polygon overlapping the cell on [3, 4] x [0, 4] while leaving
the centroid (2, 2) outside. -/
def exPoly1 : RatRect :=
  { minX := 3, minY := 0, maxX := 6, maxY := 4 }

/-- Geometry model wiring the cell stage-2 test into the spatial index. -/
def exGeomC1 : GeomModel Unit RatRect :=
  { spatial_index_rect := fun _ => some { minX := 0, minY := 0, maxX := 4, maxY := 4 },
    intersects_with_polygon := fun ix p => cellIntersectsWithPolygon exCellGeom ix p,
    polyBoundingRect := fun p => some p }

/- Concrete instantiations used by the witnesses: a toy index kind over
Nat (values below 100 are structurally valid, conversion is the identity)
and a toy cell hierarchy over resolution-path pairs in which a cell has
exactly seven children per resolution step, mirroring the H3 hierarchy. -/
/-- Toy index model over Nat: values below 100 validate to themselves. -/
def exMNat : H3Model Nat :=
  { toU64 := fun v => v,
    tryFromU64 := fun v => if v < 100 then some v else none,
    transmuteFromU64 := fun v => v }

/-- Toy cell model: a cell is a (resolution, path) pair encoded into one
Nat, with seven children per resolution step. -/
def exCellModel : CellModel (Nat × Nat) :=
  { toU64 := fun c => c.1 * 2 ^ 32 + c.2,
    tryFromU64 := fun v =>
      if v % 2 ^ 32 < 7 ^ (v / 2 ^ 32) then some (v / 2 ^ 32, v % 2 ^ 32) else none,
    transmuteFromU64 := fun v => (v / 2 ^ 32, v % 2 ^ 32),
    resolution := fun c => c.1,
    children := fun c t =>
      (List.range (7 ^ (t - c.1))).map (fun j => (t, c.2 * 7 ^ (t - c.1) + j)),
    parent := fun c t => some (t, c.2 / 7 ^ (c.1 - t)) }

/-- Column with a resolution-5 cell, a null, and a resolution-9 cell. -/
def exCellArr : H3Array (Nat × Nat) :=
  { primitive_array :=
      [some (5 * 2 ^ 32 + 3), none, some (9 * 2 ^ 32 + 11)] }

/-- Projection of an Except value with a default, used to name the
concrete results inside closed witness statements. -/
def exceptGetD {ε α : Type} (x : Except ε α) (d : α) : α :=
  match x with
  | Except.ok a => a
  | Except.error _ => d

/-- Toy grid-disk-distances: every seed reaches itself at distance 0 and
cell 100 at distance 3 (seed 1) respectively 5 (other seeds). -/
def gddEx : Nat → Nat → List (Nat × Nat) :=
  fun seed _ => [(seed, 0), (100, if seed = 1 then 3 else 5)]

/-- Two-seed column for the aggregation witness. -/
def exArr6 : H3Array Nat :=
  { primitive_array := [some 1, some 2] }

/-- The empty column of the C7 witness (the spec's empty-index scenario). -/
def exArrE : H3Array Unit :=
  { primitive_array := [] }

/-- A polygon containing the whole example cell (and its centroid). -/
def exPolyAll : RatRect :=
  { minX := 0, minY := 0, maxX := 4, maxY := 4 }

section C2Lemmas

variable {IX : Type}

theorem collectValidated_isOk_iff (m : H3Model IX) (values : List Nat) :
    isOkE (collectValidated m values) = true ↔ ∀ v ∈ values, (m.tryFromU64 v).isSome := by
  induction values with
  | nil => simp [collectValidated, isOkE]
  | cons v rest ih =>
    simp only [collectValidated]
    cases hv : m.tryFromU64 v with
    | none =>
      simp only [isOkE, List.mem_cons]
      constructor
      · intro h; cases h
      · intro h
        have := h v (Or.inl rfl)
        rw [hv] at this
        cases this
    | some ix =>
      cases hr : collectValidated m rest with
      | ok tl =>
        simp only [Except.map, isOkE, List.mem_cons]
        rw [hr] at ih
        simp only [isOkE] at ih
        constructor
        · intro _ w hw
          rcases hw with h | h
          · subst h; rw [hv]; rfl
          · exact (ih.mp trivial) w h
        · intro _; trivial
      | error e =>
        simp only [Except.map, isOkE, List.mem_cons]
        rw [hr] at ih
        simp only [isOkE] at ih
        constructor
        · intro h; cases h
        · intro h
          exact absurd (ih.mpr (fun w hw => h w (Or.inr hw))) (by simp)

theorem collectValidated_ok_spec (m : H3Model IX) (values : List Nat) (l : List Nat)
    (h : collectValidated m values = Except.ok l) :
    l.length = values.length ∧
      ∀ i v, values.get? i = some v →
        ∃ ix, m.tryFromU64 v = some ix ∧ l.get? i = some (m.toU64 ix) := by
  induction values generalizing l with
  | nil =>
    simp only [collectValidated] at h
    cases h
    simp
  | cons v rest ih =>
    simp only [collectValidated] at h
    cases hv : m.tryFromU64 v with
    | none => rw [hv] at h; cases h
    | some ix =>
      rw [hv] at h
      cases hr : collectValidated m rest with
      | error e => rw [hr] at h; cases h
      | ok tl =>
        rw [hr] at h
        simp only [Except.map] at h
        cases h
        obtain ⟨hlen, hget⟩ := ih tl hr
        refine ⟨by simp [hlen], ?_⟩
        intro i w hw
        cases i with
        | zero =>
          simp only [List.get?] at hw ⊢
          cases hw
          exact ⟨ix, hv, rfl⟩
        | succ j =>
          simp only [List.get?] at hw ⊢
          exact hget j w hw

theorem validateAll_isOk_iff (m : H3Model IX) (values : List Nat) :
    isOkE (validateAll m values) = true ↔ ∀ v ∈ values, (m.tryFromU64 v).isSome := by
  induction values with
  | nil => simp [validateAll, isOkE]
  | cons v rest ih =>
    simp only [validateAll]
    cases hv : m.tryFromU64 v with
    | none =>
      simp only [isOkE, List.mem_cons]
      constructor
      · intro h; cases h
      · intro h
        have := h v (Or.inl rfl)
        rw [hv] at this
        cases this
    | some ix =>
      rw [ih]
      simp only [List.mem_cons]
      constructor
      · intro h w hw
        rcases hw with hh | hh
        · subst hh; rw [hv]; rfl
        · exact h w hh
      · intro h w hw
        exact h w (Or.inr hw)

end C2Lemmas

/-- Claim C2: the strict construction of an IndexColumn (TryFrom of
Vec u64 and TryFrom of PrimitiveArray u64) succeeds iff every non-null
raw value decodes to a structurally valid index of the target kind; on
failure no column is observable (the Result carries only the error), and
on success get i returns some of the logical index decoded from the i-th
input.  The transmute hypotheses express the h3o bit-identity of
validation, conversion to u64 and reinterpretation, restricted to the
values actually appearing in the input. -/
theorem claim_C2 {IX : Type} (m : H3Model IX) (values : List Nat) (pvalues : List (Option Nat))
    (hTrans : ∀ v ∈ values, ∀ ix, m.tryFromU64 v = some ix →
      m.transmuteFromU64 (m.toU64 ix) = ix)
    (hTransP : ∀ v ∈ pvalues.filterMap id, ∀ ix, m.tryFromU64 v = some ix →
      m.transmuteFromU64 v = ix) :
    (isOkE (tryFromVecU64 m values) = true ↔
        ∀ v ∈ values, (m.tryFromU64 v).isSome)
    ∧ (∀ arr : H3Array IX, tryFromVecU64 m values = Except.ok arr →
        arr.len = values.length ∧
        ∀ i v ix, values.get? i = some v → m.tryFromU64 v = some ix →
          arr.get m i = some ix)
    ∧ (isOkE (tryFromPrimitiveArray m pvalues) = true ↔
        ∀ v ∈ pvalues.filterMap id, (m.tryFromU64 v).isSome)
    ∧ (∀ arr : H3Array IX, tryFromPrimitiveArray m pvalues = Except.ok arr →
        arr.len = pvalues.length ∧
        ∀ i v ix, pvalues.get? i = some (some v) → m.tryFromU64 v = some ix →
          arr.get m i = some ix) := by
  refine ⟨?_, ?_, ?_, ?_⟩
  · rw [← collectValidated_isOk_iff]
    unfold tryFromVecU64
    cases collectValidated m values <;> simp [isOkE, Except.map]
  · intro arr harr
    unfold tryFromVecU64 at harr
    cases hc : collectValidated m values with
    | error e => rw [hc] at harr; cases harr
    | ok l =>
      rw [hc] at harr
      simp only [Except.map] at harr
      cases harr
      obtain ⟨hlen, hget⟩ := collectValidated_ok_spec m values l hc
      constructor
      · simp [H3Array.len, hlen]
      · intro i v ix hv hix
        obtain ⟨ix2, hix2, hl⟩ := hget i v hv
        rw [hix] at hix2
        cases hix2
        have hmem : v ∈ values := List.get?_mem hv
        simp only [H3Array.get, List.get?_map, hl, Option.map_some', Option.getD_some]
        rw [hTrans v hmem ix hix]
  · rw [← validateAll_isOk_iff]
    unfold tryFromPrimitiveArray
    cases validateAll m (pvalues.filterMap id) <;> simp [isOkE, Except.map]
  · intro arr harr
    unfold tryFromPrimitiveArray at harr
    cases hc : validateAll m (pvalues.filterMap id) with
    | error e => rw [hc] at harr; cases harr
    | ok u =>
      rw [hc] at harr
      simp only [Except.map] at harr
      cases harr
      constructor
      · simp [H3Array.len]
      · intro i v ix hv hix
        have hmem : v ∈ pvalues.filterMap id := by
          rw [List.mem_filterMap]
          exact ⟨some v, List.get?_mem hv, rfl⟩
        have hall := (validateAll_isOk_iff m (pvalues.filterMap id)).mp (by rw [hc]; rfl)
        simp only [H3Array.get, hv, Option.getD_some, Option.map_some']
        rw [hTransP v hmem ix hix]

theorem extend_with_cell_eq (m : CellModel IX) (v : List IX) (cell : IX) (r : Nat) :
    extend_with_cell m v cell r = v ++ resBlock m cell r := by
  unfold extend_with_cell resBlock
  rcases Nat.lt_trichotomy (m.resolution cell) r with h | h | h
  · rw [Nat.compare_eq_lt.mpr h, if_pos h]
  · rw [Nat.compare_eq_eq.mpr h, if_neg (by omega), if_pos h]
  · rw [Nat.compare_eq_gt.mpr h, if_neg (by omega), if_neg (by omega)]

theorem resBlock_mem_rel (m : CellModel IX) (r : Nat) (b a : IX)
    (h : a ∈ resBlock m b r) : pairedRel m r b a := by
  unfold resBlock at h
  unfold pairedRel
  split at h
  · rw [if_pos (by assumption)]; exact h
  · split at h
    · rw [if_neg (by assumption), if_pos (by assumption)]
      simpa using h
    · rw [if_neg (by assumption), if_neg (by assumption)]
      cases hp : m.parent b r with
      | none => rw [hp] at h; simp [Option.toList] at h
      | some x => rw [hp] at h; simp [Option.toList] at h; rw [h]

theorem h3ArrayFromVec_get (m : H3Model IX) (l : List IX) (j : Nat) :
    (h3ArrayFromVec m l).get m j =
      (l.get? j).map (fun x => m.transmuteFromU64 (m.toU64 x)) := by
  unfold h3ArrayFromVec H3Array.get
  rw [List.get?_map]
  cases l.get? j <;> simp

theorem foldl_extend_eq_flat (m : CellModel IX) (r : Nat) :
    ∀ (cells : List IX) (acc : List IX),
      cells.foldl (fun acc cell => extend_with_cell m acc cell r) acc =
        acc ++ (cells.map (fun c => resBlock m c r)).join := by
  intro cells
  induction cells with
  | nil => intro acc; simp
  | cons c rest ih =>
    intro acc
    simp only [List.foldl_cons, List.map_cons, List.join_cons]
    rw [extend_with_cell_eq, ih, List.append_assoc]

/-- Claim C4: change_resolution omits null input positions entirely: its
output is exactly the concatenation, over the valid input cells in order,
of the per-cell blocks (descendants at the target when coarser, the cell
itself when equal, the ancestor when finer), it contains zero null
positions, and its length is the sum of the block lengths (e.g. 7 + 1 = 8
for one resolution-5 cell and one resolution-9 cell at target 6 with one
null input dropped). -/
theorem claim_C4 (m : CellModel IX) (a : H3Array IX) (r : Nat) :
    ∀ out : H3Array IX, change_resolution m a r = Except.ok out →
      out.primitive_array =
          ((validCells m a).map (fun c => resBlock m c r)).join.map
            (fun c => some (m.toU64 c))
        ∧ (∀ o ∈ out.primitive_array, o.isSome)
        ∧ out.len = ((validCells m a).map (fun c => (resBlock m c r).length)).sum := by
  intro out hout
  unfold change_resolution at hout
  cases hout
  rw [foldl_extend_eq_flat]
  simp only [List.nil_append]
  refine ⟨rfl, ?_, ?_⟩
  · intro o ho
    unfold h3ArrayFromVec at ho
    simp only [List.mem_map] at ho
    obtain ⟨c, _, hc⟩ := ho
    rw [← hc]
    rfl
  · simp only [H3Array.len, h3ArrayFromVec, List.length_map, List.length_join]
    congr 1
    rw [List.map_map]
    rfl

theorem foldPair_spec (m : CellModel IX) (r : Nat) :
    ∀ (cells : List IX) (bv av : List IX), bv.length = av.length →
      ((cells.foldl (pairedStep m r) (bv, av)).1.length =
        (cells.foldl (pairedStep m r) (bv, av)).2.length)
      ∧ ∀ j b a_,
          (cells.foldl (pairedStep m r) (bv, av)).1.get? j = some b →
          (cells.foldl (pairedStep m r) (bv, av)).2.get? j = some a_ →
          (bv.get? j = some b ∧ av.get? j = some a_)
            ∨ (b ∈ cells ∧ a_ ∈ resBlock m b r) := by
  intro cells
  induction cells with
  | nil =>
    intro bv av h
    exact ⟨h, fun j b a_ hb ha => Or.inl ⟨hb, ha⟩⟩
  | cons c rest ih =>
    intro bv av h
    simp only [List.foldl_cons]
    have hstep : pairedStep m r (bv, av) c =
        (bv ++ List.replicate (resBlock m c r).length c, av ++ resBlock m c r) := by
      unfold pairedStep
      rw [extend_with_cell_eq]
      simp
    rw [hstep]
    have hlen : (bv ++ List.replicate (resBlock m c r).length c).length
        = (av ++ resBlock m c r).length := by
      simp [h]
    have hrec := ih (bv ++ List.replicate (resBlock m c r).length c)
      (av ++ resBlock m c r) hlen
    refine ⟨hrec.1, ?_⟩
    intro j b a_ hb ha
    rcases hrec.2 j b a_ hb ha with ⟨hb', ha'⟩ | ⟨hmem, hblk⟩
    · by_cases hj : j < bv.length
      · rw [List.get?_append hj] at hb'
        rw [List.get?_append (by omega : j < av.length)] at ha'
        exact Or.inl ⟨hb', ha'⟩
      · right
        rw [List.get?_append_right (by omega)] at hb'
        rw [List.get?_append_right (by omega : av.length ≤ j)] at ha'
        have hbmem := List.get?_mem hb'
        have hamem := List.get?_mem ha'
        rw [List.eq_of_mem_replicate hbmem]
        exact ⟨List.mem_cons_self _ _, hamem⟩
    · exact Or.inr ⟨List.mem_cons_of_mem _ hmem, hblk⟩

/-- Claim C3: change_resolution_paired returns equal-length before/after
columns, and at every position j the after-cell stands in the claimed
relation to the before-cell that produced it: equal when the before-cell
already has the target resolution, one of its descendants at the target
when it is coarser, its ancestor at the target when it is finer.  The
hypothesis is the h3o bit round-trip law on the cells actually involved. -/
theorem claim_C3 (m : CellModel IX) (a : H3Array IX) (r : Nat)
    (hT : ∀ c ∈ validCells m a,
      m.transmuteFromU64 (m.toU64 c) = c ∧
        ∀ x ∈ resBlock m c r, m.transmuteFromU64 (m.toU64 x) = x) :
    ∀ p : ChangedResolutionPair (H3Array IX),
      change_resolution_paired m a r = Except.ok p →
        p.before.len = p.after.len ∧
        ∀ j, j < p.after.len →
          ∃ b a_, b ∈ validCells m a ∧ p.before.get m.toH3Model j = some b ∧
            p.after.get m.toH3Model j = some a_ ∧ pairedRel m r b a_ := by
  intro p hp
  unfold change_resolution_paired at hp
  cases hp
  obtain ⟨hlen, hspec⟩ := foldPair_spec m r (validCells m a) [] [] rfl
  constructor
  · simp only [H3Array.len, h3ArrayFromVec, List.length_map]
    exact hlen
  · intro j hj
    simp only [H3Array.len, h3ArrayFromVec, List.length_map] at hj
    have hj2 : j < ((validCells m a).foldl (pairedStep m r) ([], [])).2.length := hj
    have hj1 : j < ((validCells m a).foldl (pairedStep m r) ([], [])).1.length := by
      rw [hlen]; exact hj
    have hb := List.get?_eq_get hj1
    have ha := List.get?_eq_get hj2
    rcases hspec j _ _ hb ha with ⟨hb', _⟩ | ⟨hmem, hblk⟩
    · simp at hb'
    · refine ⟨_, _, hmem, ?_, ?_, resBlock_mem_rel m r _ _ hblk⟩
      · rw [h3ArrayFromVec_get, hb, Option.map_some']
        rw [(hT _ hmem).1]
      · rw [h3ArrayFromVec_get, ha, Option.map_some']
        rw [(hT _ hmem).2 _ hblk]

/-- Claim C10: for every well-formed cell column both change_resolution and
change_resolution_paired return Ok.  The result conversion is the
infallible From of Vec CellIndex (the blanket TryFrom whose error is
Infallible), so the unwrap can never panic — no re-validation even takes
place; under the h3o guarantee that descendants and ancestors of
structurally valid cells are themselves structurally valid, the produced
columns moreover satisfy the column invariant that every stored raw value
decodes. -/
theorem claim_C10 (m : CellModel IX) (a : H3Array IX) (r : Nat)
    (hValid : ∀ c ∈ validCells m a,
      (m.tryFromU64 (m.toU64 c)).isSome ∧
        ∀ x ∈ resBlock m c r, (m.tryFromU64 (m.toU64 x)).isSome) :
    (∃ out, change_resolution m a r = Except.ok out ∧
        ∀ v ∈ out.primitive_array.filterMap id, (m.tryFromU64 v).isSome)
    ∧ ∃ p, change_resolution_paired m a r = Except.ok p ∧
        (∀ v ∈ p.before.primitive_array.filterMap id, (m.tryFromU64 v).isSome) ∧
        (∀ v ∈ p.after.primitive_array.filterMap id, (m.tryFromU64 v).isSome) := by
  constructor
  · refine ⟨_, rfl, ?_⟩
    intro v hv
    unfold h3ArrayFromVec at hv
    rw [foldl_extend_eq_flat] at hv
    simp only [List.nil_append, List.mem_filterMap, List.mem_map, id] at hv
    obtain ⟨o, ⟨x, hx, ho⟩, hvo⟩ := hv
    rw [← ho] at hvo
    cases hvo
    rw [List.mem_join] at hx
    obtain ⟨blk, hblk, hxblk⟩ := hx
    rw [List.mem_map] at hblk
    obtain ⟨c, hc, hcb⟩ := hblk
    rw [← hcb] at hxblk
    exact (hValid c hc).2 x hxblk
  · refine ⟨_, rfl, ?_, ?_⟩
    · intro v hv
      unfold h3ArrayFromVec at hv
      simp only [List.mem_filterMap, List.mem_map, id] at hv
      obtain ⟨o, ⟨b, hb, ho⟩, hvo⟩ := hv
      rw [← ho] at hvo
      cases hvo
      obtain ⟨j, hj⟩ := List.mem_iff_get?.mp hb
      have hj1 : j < ((validCells m a).foldl (pairedStep m r) ([], [])).1.length :=
        (List.get?_eq_some.mp hj).1
      have hj2 : j < ((validCells m a).foldl (pairedStep m r) ([], [])).2.length := by
        rw [← (foldPair_spec m r (validCells m a) [] [] rfl).1]; exact hj1
      have ha2 := List.get?_eq_get hj2
      rcases (foldPair_spec m r (validCells m a) [] [] rfl).2 j _ _ hj ha2 with
        ⟨hb', _⟩ | ⟨hmem, _⟩
      · simp at hb'
      · exact (hValid b hmem).1
    · intro v hv
      unfold h3ArrayFromVec at hv
      simp only [List.mem_filterMap, List.mem_map, id] at hv
      obtain ⟨o, ⟨x, hx, ho⟩, hvo⟩ := hv
      rw [← ho] at hvo
      cases hvo
      obtain ⟨j, hj⟩ := List.mem_iff_get?.mp hx
      have hj2 : j < ((validCells m a).foldl (pairedStep m r) ([], [])).2.length :=
        (List.get?_eq_some.mp hj).1
      have hj1 : j < ((validCells m a).foldl (pairedStep m r) ([], [])).1.length := by
        rw [(foldPair_spec m r (validCells m a) [] [] rfl).1]; exact hj2
      have hb1 := List.get?_eq_get hj1
      rcases (foldPair_spec m r (validCells m a) [] [] rfl).2 j _ _ hb1 hj with
        ⟨_, ha'⟩ | ⟨hmem, hblk⟩
      · simp at ha'
      · exact (hValid _ hmem).2 x hblk

theorem opsFlat_nil (m : H3Model IX) : opsFlat m [] = [] := rfl

theorem opsFlat_cons (m : H3Model IX) (op : BuilderOp IX) (rest : List (BuilderOp IX)) :
    opsFlat m (op :: rest) = opPayload m op ++ opsFlat m rest := by
  simp [opsFlat]

theorem opsFlat_take_succ (m : H3Model IX) (ops : List (BuilderOp IX)) (i : Nat)
    (op : BuilderOp IX) (h : ops.get? i = some op) :
    opsFlat m (ops.take (i + 1)) = opsFlat m (ops.take i) ++ opPayload m op := by
  rw [List.take_succ]
  rw [show ops[i]? = some op from by rw [← List.get?_eq_getElem?]; exact h]
  simp [opsFlat]

theorem runOps_go (m : H3Model IX) :
    ∀ (ops : List (BuilderOp IX)) (b : ListArrayBuilder),
      ops.foldl
        (fun b op =>
          match op with
          | BuilderOp.push_valid vs => b.push_valid (vs.map m.toU64)
          | BuilderOp.push_invalid => b.push_invalid) b =
      { values := b.values ++ opsFlat m ops,
        offsets := b.offsets ++
          (List.range ops.length).map
            (fun i => b.values.length + (opsFlat m (ops.take i)).length),
        list_validity := b.list_validity ++ ops.map opValid } := by
  intro ops
  induction ops with
  | nil =>
    intro b
    simp [opsFlat]
  | cons op rest ih =>
    intro b
    simp only [List.foldl_cons]
    rw [ih]
    have hval : (match op with
        | BuilderOp.push_valid vs => b.push_valid (vs.map m.toU64)
        | BuilderOp.push_invalid => b.push_invalid).values = b.values ++ opPayload m op := by
      cases op <;> simp [ListArrayBuilder.push_valid, ListArrayBuilder.push_invalid, opPayload]
    have hoff : (match op with
        | BuilderOp.push_valid vs => b.push_valid (vs.map m.toU64)
        | BuilderOp.push_invalid => b.push_invalid).offsets = b.offsets ++ [b.values.length] := by
      cases op <;> simp [ListArrayBuilder.push_valid, ListArrayBuilder.push_invalid]
    have hvl : (match op with
        | BuilderOp.push_valid vs => b.push_valid (vs.map m.toU64)
        | BuilderOp.push_invalid => b.push_invalid).list_validity =
          b.list_validity ++ [opValid op] := by
      cases op <;> simp [ListArrayBuilder.push_valid, ListArrayBuilder.push_invalid, opValid]
    rw [hval, hoff, hvl]
    simp only [ListArrayBuilder.mk.injEq]
    refine ⟨?_, ?_, ?_⟩
    · rw [opsFlat_cons, List.append_assoc]
    · rw [List.append_assoc, List.singleton_append]
      have hlen2 : (op :: rest).length = rest.length + 1 := rfl
      rw [hlen2, List.range_succ_eq_map, List.map_cons, List.map_map]
      have hhead : b.values.length + (opsFlat m ((op :: rest).take 0)).length
          = b.values.length := by
        simp [opsFlat]
      have hfun : ((fun i => b.values.length + (opsFlat m ((op :: rest).take i)).length)
            ∘ Nat.succ)
          = fun i => (b.values ++ opPayload m op).length
              + (opsFlat m (rest.take i)).length := by
        funext i
        simp only [Function.comp_apply, List.take_succ_cons, opsFlat_cons,
          List.length_append]
        omega
      rw [hhead, hfun]
    · rw [List.append_assoc, List.singleton_append, List.map_cons]

theorem getD_of_get? {α : Type} (l : List α) (i : Nat) (x d : α)
    (h : l.get? i = some x) : l.getD i d = x := by
  induction l generalizing i with
  | nil => cases h
  | cons a t ih =>
    cases i with
    | zero => simp only [List.get?] at h; cases h; rfl
    | succ j =>
      simp only [List.get?] at h
      simp only [List.getD_cons_succ]
      exact ih j h

theorem getD_map_range (f : Nat → Nat) (n i : Nat) (hi : i < n) :
    ((List.range n).map f).getD i 0 = f i := by
  apply getD_of_get?
  rw [List.get?_map, List.get?_range hi]
  rfl

theorem offsetsMonotone_of_pairwise :
    ∀ l : List Nat, l ≠ [] →
      (∀ i, i + 1 < l.length → l.getD i 0 ≤ l.getD (i + 1) 0) →
      offsetsMonotone l = true := by
  intro l
  induction l with
  | nil => intro h; exact absurd rfl h
  | cons a t ih =>
    intro _ hp
    cases t with
    | nil => rfl
    | cons b rest =>
      have h0 := hp 0 (by simp)
      simp only [List.getD_cons_zero, List.getD_cons_succ] at h0
      unfold offsetsMonotone
      rw [Bool.and_eq_true, decide_eq_true_eq]
      refine ⟨h0, ih (by simp) ?_⟩
      intro i hi
      have := hp (i + 1) (by simpa using Nat.succ_lt_succ hi)
      simpa [List.getD_cons_succ] using this

theorem opsFlat_take_mono (m : H3Model IX) (ops : List (BuilderOp IX)) (i : Nat) :
    (opsFlat m (ops.take i)).length ≤ (opsFlat m (ops.take (i + 1))).length := by
  cases h : ops.get? i with
  | some op => rw [opsFlat_take_succ m ops i op h]; simp
  | none =>
    rw [List.take_succ]
    rw [show ops[i]? = none from by rw [← List.get?_eq_getElem?]; exact h]
    simp

theorem runOps_build (m : H3Model IX) (ops : List (BuilderOp IX)) :
    (runOps m ops).build =
      some { offsets := (List.range (ops.length + 1)).map
               (fun i => (opsFlat m (ops.take i)).length),
             values := opsFlat m ops,
             validity := if (ops.map opValid).all (fun x => x) then none
                         else some (ops.map opValid) } := by
  unfold runOps
  rw [runOps_go]
  simp only [List.nil_append]
  have hoffs : ((List.range ops.length).map
        (fun i => List.length ([] : List Nat) + (opsFlat m (ops.take i)).length))
        ++ [(opsFlat m ops).length]
      = (List.range (ops.length + 1)).map
          (fun i => (opsFlat m (ops.take i)).length) := by
    rw [List.range_succ, List.map_append]
    simp [List.take_length]
  unfold ListArrayBuilder.build
  simp only []
  rw [hoffs]
  have hmono : offsetsMonotone ((List.range (ops.length + 1)).map
      (fun i => (opsFlat m (ops.take i)).length)) = true := by
    apply offsetsMonotone_of_pairwise
    · simp [List.range_succ]
    · intro i hi
      simp only [List.length_map, List.length_range] at hi
      rw [getD_map_range _ _ _ (by omega), getD_map_range _ _ _ (by omega)]
      exact opsFlat_take_mono m ops i
  have hlast : ((List.range (ops.length + 1)).map
      (fun i => (opsFlat m (ops.take i)).length)).getLastD 0 = (opsFlat m ops).length := by
    rw [← hoffs]
    rw [List.getLastD_eq_getLast?, List.getLast?_concat]
    rfl
  rw [if_pos]
  rw [hmono, hlast]
  simp

theorem built_sub (m : H3Model IX) (ops : List (BuilderOp IX)) (i : Nat)
    (op : BuilderOp IX) (h : ops.get? i = some op) :
    ∀ l, (runOps m ops).build = some l →
      l.sub i = (match op with
        | BuilderOp.push_valid vs => some (vs.map m.toU64)
        | BuilderOp.push_invalid => none) := by
  intro l hl
  rw [runOps_build] at hl
  cases hl
  have hi : i < ops.length := (List.get?_eq_some.mp h).1
  have hvalbit : (ops.map opValid).get? i = some (opValid op) := by
    rw [List.get?_map, h]; rfl
  have hoff1 : ((List.range (ops.length + 1)).map
      (fun j => (opsFlat m (ops.take j)).length)).getD i 0
      = (opsFlat m (ops.take i)).length := getD_map_range _ _ _ (by omega)
  have hoff2 : ((List.range (ops.length + 1)).map
      (fun j => (opsFlat m (ops.take j)).length)).getD (i + 1) 0
      = (opsFlat m (ops.take (i + 1))).length := getD_map_range _ _ _ (by omega)
  have hdecomp : opsFlat m ops
      = opsFlat m (ops.take i) ++ (opPayload m op ++ opsFlat m (ops.drop (i + 1))) := by
    conv_lhs => rw [← List.take_append_drop i ops]
    rw [List.drop_eq_get_cons hi]
    have : ops.get ⟨i, hi⟩ = op := by
      have := List.get?_eq_get hi
      rw [h] at this
      exact (Option.some.injEq _ _ ▸ this.symm)
    rw [this]
    simp [opsFlat]
  have hslice : ((opsFlat m ops).drop (opsFlat m (ops.take i)).length).take
      ((opsFlat m (ops.take (i + 1))).length - (opsFlat m (ops.take i)).length)
      = opPayload m op := by
    rw [opsFlat_take_succ m ops i op h, List.length_append]
    rw [hdecomp, List.drop_left, Nat.add_sub_cancel_left, List.take_left]
  have hbit : (ops.map opValid).getD i false = opValid op := getD_of_get? _ _ _ _ hvalbit
  unfold BuiltListArray.sub
  simp only [hoff1, hoff2, hslice]
  cases hall : (ops.map opValid).all (fun x => x) with
  | true =>
    cases op with
    | push_valid vs =>
      simp [opPayload]
    | push_invalid =>
      exfalso
      have := List.all_eq_true.mp hall _ (List.get?_mem hvalbit)
      simp [opValid] at this
  | false =>
    have hg : ops[i]? = some op := by rw [← List.get?_eq_getElem?]; exact h
    cases op with
    | push_valid vs =>
      simp [hg, opValid, opPayload]
    | push_invalid =>
      simp [hg, opValid]

/-- Claim C5: the built ragged list preserves the distinction between an
empty-but-valid outer element and a null outer element: an element pushed
via push_valid reads back through iter_arrays as some validated sub-column
holding exactly the pushed values (so push_valid with zero items reads
back as some of an empty column, not none), one pushed via push_invalid
reads back as none, and the flat values buffer is exactly the
concatenation of the push_valid payloads (null and empty-valid elements
contribute zero values to it). -/
theorem claim_C5 {IX : Type} (m : H3Model IX) (ops : List (BuilderOp IX)) :
    ∃ l, (runOps m ops).build = some l ∧
      l.values = opsFlat m ops ∧
      l.len = ops.length ∧
      ∀ i op, ops.get? i = some op →
        (iter_arrays m l).get? i =
          some (match op with
            | BuilderOp.push_valid vs => some (tryFromUInt64Array m (vs.map m.toU64))
            | BuilderOp.push_invalid => none) ∧
        (op = BuilderOp.push_valid ([] : List IX) →
          (iter_arrays m l).get? i =
            some (some (Except.ok ({ primitive_array := [] } : H3Array IX)))) := by
  refine ⟨_, runOps_build m ops, rfl, ?_, ?_⟩
  · simp [BuiltListArray.len]
  · intro i op hop
    have hi : i < ops.length := (List.get?_eq_some.mp hop).1
    have hlen : (BuiltListArray.len
        { offsets := (List.range (ops.length + 1)).map
            (fun i => (opsFlat m (ops.take i)).length),
          values := opsFlat m ops,
          validity := if (ops.map opValid).all (fun x => x) then none
                      else some (ops.map opValid) }) = ops.length := by
      simp [BuiltListArray.len]
    have hsub := built_sub m ops i op hop _ (runOps_build m ops)
    have hiter : (iter_arrays m
        { offsets := (List.range (ops.length + 1)).map
            (fun i => (opsFlat m (ops.take i)).length),
          values := opsFlat m ops,
          validity := if (ops.map opValid).all (fun x => x) then none
                      else some (ops.map opValid) }).get? i =
        some ((match op with
          | BuilderOp.push_valid vs => some (vs.map m.toU64)
          | BuilderOp.push_invalid => none).map (fun vals => tryFromUInt64Array m vals)) := by
      unfold iter_arrays
      rw [List.get?_map, hlen, List.get?_range hi]
      simp only [Option.map_some']
      rw [hsub]
      cases op <;> rfl
    constructor
    · rw [hiter]
      cases op <;> simp
    · intro hemp
      subst hemp
      rw [hiter]
      rfl

section C6Lemmas

variable {IX : Type} [DecidableEq IX]

theorem alSet_keys (cellmap : List (IX × Nat)) (key : IX) (val : Nat) :
    (alSet cellmap key val).map Prod.fst = cellmap.map Prod.fst := by
  induction cellmap with
  | nil => rfl
  | cons kv rest ih =>
    obtain ⟨k, v⟩ := kv
    by_cases h : k = key
    · simp [alSet, h]
    · simp [alSet, h, ih]

theorem alLookup_alSet (cellmap : List (IX × Nat)) (key : IX) (val : Nat) (c : IX) :
    alLookup (alSet cellmap key val) c =
      if c = key then (alLookup cellmap key).map (fun _ => val)
      else alLookup cellmap c := by
  induction cellmap with
  | nil => by_cases hc : c = key <;> simp [alSet, alLookup, hc]
  | cons kv rest ih =>
    obtain ⟨k, v⟩ := kv
    by_cases hk : k = key
    · subst hk
      by_cases hc : c = k
      · subst hc
        simp [alSet, alLookup]
      · have hkc : ¬ k = c := fun h => hc h.symm
        simp [alSet, alLookup, hc, hkc]
    · by_cases hc : c = k
      · subst hc
        have hckey : ¬ c = key := hk
        simp [alSet, alLookup, hk, hckey]
      · have hkc : ¬ k = c := fun h => hc h.symm
        simp [alSet, alLookup, hk, hkc, ih]

theorem alLookup_append_of_some (cellmap : List (IX × Nat)) (key : IX) (d : Nat)
    (c : IX) (v : Nat) (h : alLookup cellmap c = some v) :
    alLookup (cellmap ++ [(key, d)]) c = some v := by
  induction cellmap with
  | nil => cases h
  | cons kv rest ih =>
    obtain ⟨k, w⟩ := kv
    simp only [alLookup] at h
    by_cases hk : k = c
    · rw [if_pos hk] at h
      simp only [List.cons_append, alLookup, if_pos hk]
      exact h
    · rw [if_neg hk] at h
      simp only [List.cons_append, alLookup, if_neg hk]
      exact ih h

theorem alLookup_append_of_none (cellmap : List (IX × Nat)) (key : IX) (d : Nat)
    (c : IX) (h : alLookup cellmap c = none) :
    alLookup (cellmap ++ [(key, d)]) c = if key = c then some d else none := by
  induction cellmap with
  | nil => simp [alLookup]
  | cons kv rest ih =>
    obtain ⟨k, w⟩ := kv
    simp only [alLookup] at h
    by_cases hk : k = c
    · rw [if_pos hk] at h; cases h
    · rw [if_neg hk] at h
      simp only [List.cons_append, alLookup, if_neg hk]
      exact ih h

theorem alLookup_none_not_mem (cellmap : List (IX × Nat)) (c : IX)
    (h : alLookup cellmap c = none) : c ∉ cellmap.map Prod.fst := by
  induction cellmap with
  | nil => simp
  | cons kv rest ih =>
    obtain ⟨k, v⟩ := kv
    simp only [alLookup] at h
    by_cases hk : k = c
    · rw [if_pos hk] at h; cases h
    · rw [if_neg hk] at h
      simp only [List.map_cons, List.mem_cons]
      rintro (hh | hh)
      · exact hk hh.symm
      · exact ih h hh

theorem alLookup_of_get? (cellmap : List (IX × Nat)) :
    ∀ (j : Nat) (c : IX) (d : Nat), (cellmap.map Prod.fst).Nodup →
      cellmap.get? j = some (c, d) → alLookup cellmap c = some d := by
  induction cellmap with
  | nil => intro j c d _ h; cases h
  | cons kv rest ih =>
    intro j c d hnd h
    obtain ⟨k, v⟩ := kv
    cases j with
    | zero =>
      simp only [List.get?] at h
      cases h
      simp [alLookup]
    | succ j' =>
      simp only [List.get?] at h
      simp only [List.map_cons, List.nodup_cons] at hnd
      have hmem : c ∈ rest.map Prod.fst := by
        rw [List.mem_map]
        exact ⟨(c, d), List.get?_mem h, rfl⟩
      have hk : ¬ k = c := fun he => hnd.1 (he ▸ hmem)
      simp only [alLookup, if_neg hk]
      exact ih j' c d hnd.2 h

theorem aggIs_extend (method : KAggregationMethod) (d0 d : Nat) (l : List Nat)
    (h : aggIs method d0 l) :
    aggIs method (kAggCombine method d0 d) (l ++ [d]) := by
  obtain ⟨hmem, hbnd⟩ := h
  unfold kAggCombine
  cases method with
  | Min =>
    constructor
    · rcases Nat.le_total d0 d with hle | hle
      · rw [Nat.min_eq_left hle]
        exact List.mem_append_left _ hmem
      · rw [Nat.min_eq_right hle]
        simp
    · intro x hx
      rcases List.mem_append.mp hx with hx | hx
      · exact le_trans (Nat.min_le_left _ _) (hbnd x hx)
      · simp only [List.mem_singleton] at hx
        subst hx
        exact Nat.min_le_right _ _
  | Max =>
    constructor
    · rcases Nat.le_total d0 d with hle | hle
      · rw [Nat.max_eq_right hle]
        simp
      · rw [Nat.max_eq_left hle]
        exact List.mem_append_left _ hmem
    · intro x hx
      rcases List.mem_append.mp hx with hx | hx
      · exact le_trans (hbnd x hx) (Nat.le_max_left _ _)
      · simp only [List.mem_singleton] at hx
        subst hx
        exact Nat.le_max_right _ _

theorem aggInv_congr (method : KAggregationMethod) (O O' : IX → List Nat)
    (cellmap : List (IX × Nat)) (h : ∀ c, O c = O' c)
    (hinv : aggInv method O cellmap) : aggInv method O' cellmap := by
  obtain ⟨hnd, hsome, hnone⟩ := hinv
  refine ⟨hnd, ?_, ?_⟩
  · intro c d hcd
    rw [← h c]
    exact hsome c d hcd
  · intro c hcd
    rw [← h c]
    exact hnone c hcd

theorem aggUpdate_inv (method : KAggregationMethod) (O : IX → List Nat)
    (cellmap : List (IX × Nat)) (p : IX × Nat)
    (hinv : aggInv method O cellmap) :
    aggInv method (fun c => O c ++ (if p.1 = c then [p.2] else []))
      (aggUpdate method cellmap p) := by
  obtain ⟨hnd, hsome, hnone⟩ := hinv
  unfold aggUpdate
  cases hocc : alLookup cellmap p.1 with
  | some d0 =>
    refine ⟨by rw [alSet_keys]; exact hnd, ?_, ?_⟩
    · intro c d hcd
      rw [alLookup_alSet] at hcd
      by_cases hc : c = p.1
      · subst hc
        rw [if_pos rfl, hocc, Option.map_some'] at hcd
        cases hcd
        have hprev := hsome p.1 d0 hocc
        show aggIs method (kAggCombine method d0 p.2)
          (O p.1 ++ if p.1 = p.1 then [p.2] else [])
        rw [if_pos rfl]
        exact aggIs_extend method d0 p.2 (O p.1) hprev
      · rw [if_neg hc] at hcd
        have hne : ¬ p.1 = c := fun h => hc h.symm
        simp only [if_neg hne, List.append_nil]
        exact hsome c d hcd
    · intro c hcd
      rw [alLookup_alSet] at hcd
      by_cases hc : c = p.1
      · subst hc
        rw [if_pos rfl, hocc] at hcd
        cases hcd
      · rw [if_neg hc] at hcd
        have hne : ¬ p.1 = c := fun h => hc h.symm
        simp only [if_neg hne, List.append_nil]
        exact hnone c hcd
  | none =>
    refine ⟨?_, ?_, ?_⟩
    · rw [List.map_append, List.nodup_append]
      refine ⟨hnd, List.nodup_singleton _, ?_⟩
      intro x hx hx2
      simp only [List.map_cons, List.map_nil, List.mem_singleton] at hx2
      subst hx2
      exact alLookup_none_not_mem cellmap p.1 hocc hx
    · intro c d hcd
      cases hlc : alLookup cellmap c with
      | some v =>
        rw [alLookup_append_of_some cellmap p.1 p.2 c v hlc] at hcd
        cases hcd
        have hne : ¬ p.1 = c := by
          intro h
          rw [h] at hocc
          rw [hocc] at hlc
          cases hlc
        simp only [if_neg hne, List.append_nil]
        exact hsome c d hlc
      | none =>
        rw [alLookup_append_of_none cellmap p.1 p.2 c hlc] at hcd
        by_cases hc : p.1 = c
        · rw [if_pos hc] at hcd
          cases hcd
          subst hc
          have hO : O p.1 = [] := hnone p.1 hlc
          show aggIs method p.2 (O p.1 ++ if p.1 = p.1 then [p.2] else [])
          rw [if_pos rfl, hO, List.nil_append]
          refine ⟨List.mem_singleton_self _, ?_⟩
          intro x hx
          simp only [List.mem_singleton] at hx
          subst hx
          cases method <;> simp [aggIs, kAggCombine]
        · rw [if_neg hc] at hcd
          cases hcd
    · intro c hcd
      cases hlc : alLookup cellmap c with
      | some v =>
        rw [alLookup_append_of_some cellmap p.1 p.2 c v hlc] at hcd
        cases hcd
      | none =>
        rw [alLookup_append_of_none cellmap p.1 p.2 c hlc] at hcd
        by_cases hc : p.1 = c
        · rw [if_pos hc] at hcd
          cases hcd
        · rw [if_neg hc] at hcd
          simp only [if_neg hc, List.append_nil]
          exact hnone c hlc

theorem aggFold_inv (method : KAggregationMethod) :
    ∀ (pairs : List (IX × Nat)) (cellmap : List (IX × Nat)) (O : IX → List Nat),
      aggInv method O cellmap →
      aggInv method
        (fun c => O c ++ (pairs.filter (fun p => decide (p.1 = c))).map Prod.snd)
        (pairs.foldl (aggUpdate method) cellmap) := by
  intro pairs
  induction pairs with
  | nil =>
    intro cellmap O h
    simpa using h
  | cons p rest ih =>
    intro cellmap O h
    simp only [List.foldl_cons]
    have hstep := aggUpdate_inv method O cellmap p h
    have hrec := ih (aggUpdate method cellmap p)
      (fun c => O c ++ (if p.1 = c then [p.2] else [])) hstep
    have heq : ∀ c,
        ((fun c => O c ++ (if p.1 = c then [p.2] else [])) c
            ++ (rest.filter (fun p2 => decide (p2.1 = c))).map Prod.snd)
          = O c ++ (((p :: rest).filter (fun p2 => decide (p2.1 = c))).map Prod.snd) := by
      intro c
      by_cases hc : p.1 = c
      · simp [List.filter_cons, hc]
      · simp [List.filter_cons, hc]
    exact aggInv_congr method
      (fun c => (fun c => O c ++ (if p.1 = c then [p.2] else [])) c
        ++ (rest.filter (fun p2 => decide (p2.1 = c))).map Prod.snd)
      _ _ heq hrec

theorem foldl_inner_join {α β γ : Type} (g : γ → β → γ) (f : α → List β) :
    ∀ (xs : List α) (acc : γ),
      xs.foldl (fun a x => (f x).foldl g a) acc = ((xs.map f).join).foldl g acc := by
  intro xs
  induction xs with
  | nil => intro acc; rfl
  | cons x rest ih =>
    intro acc
    simp only [List.foldl_cons, List.map_cons, List.join_cons, List.foldl_append]
    exact ih _

end C6Lemmas

/-- Claim C6: grid_disk_aggregate_k produces two equal-length flat columns
in which no cell appears twice, and the distance recorded for a cell is
the minimum (method Min) respectively maximum (method Max) of the grid
distances at which that cell is reached from any valid input cell (so a
cell reached from two seeds at distances 3 and 5 gets 3 under Min and 5
under Max). -/
theorem claim_C6 {IX : Type} [DecidableEq IX] (m : H3Model IX)
    (gridDiskDistances : IX → Nat → List (IX × Nat))
    (a : H3Array IX) (k : Nat) (k_agg_method : KAggregationMethod) :
    (grid_disk_aggregate_k m gridDiskDistances a k k_agg_method).1.length =
        (grid_disk_aggregate_k m gridDiskDistances a k k_agg_method).2.length
    ∧ (grid_disk_aggregate_k m gridDiskDistances a k k_agg_method).1.Nodup
    ∧ ∀ j c d,
        (grid_disk_aggregate_k m gridDiskDistances a k k_agg_method).1.get? j = some c →
        (grid_disk_aggregate_k m gridDiskDistances a k k_agg_method).2.get? j = some d →
        aggIs k_agg_method d (occurrences m gridDiskDistances a k c) := by
  have hinv0 : aggInv k_agg_method (fun _ : IX => ([] : List Nat)) [] := by
    refine ⟨List.nodup_nil, ?_, ?_⟩
    · intro c d hcd
      exact Option.noConfusion hcd
    · intro c _
      rfl
  have hfold := aggFold_inv k_agg_method
    ((((a.iter m).filterMap id).map (fun seed => gridDiskDistances seed k)).join)
    [] (fun _ => []) hinv0
  have hrw : ((a.iter m).filterMap id).foldl
      (fun cellmap cell =>
        (gridDiskDistances cell k).foldl (aggUpdate k_agg_method) cellmap) [] =
      ((((a.iter m).filterMap id).map (fun seed => gridDiskDistances seed k)).join).foldl
        (aggUpdate k_agg_method) [] :=
    foldl_inner_join (aggUpdate k_agg_method) (fun seed => gridDiskDistances seed k) _ _
  unfold grid_disk_aggregate_k
  simp only [hrw]
  obtain ⟨hnd, hsome, _⟩ := hfold
  refine ⟨by simp, hnd, ?_⟩
  intro j c d hc hd
  rw [List.get?_map] at hc hd
  cases hget : (((((a.iter m).filterMap id).map
      (fun seed => gridDiskDistances seed k)).join).foldl (aggUpdate k_agg_method) []).get? j with
  | none => rw [hget] at hc; cases hc
  | some pr =>
    rw [hget] at hc hd
    simp only [Option.map_some'] at hc hd
    cases hc
    cases hd
    have hlk := alLookup_of_get? _ j _ _ hnd (by rw [hget])
    have := hsome pr.1 pr.2 hlk
    simpa [occurrences] using this

section SpatialLemmas

variable {IX P G : Type}

theorem getD_set_self (l : List Bool) (i : Nat) (b : Bool) (h : i < l.length) :
    (l.set i b).getD i false = b := by
  induction l generalizing i with
  | nil => cases h
  | cons a t ih =>
    cases i with
    | zero => rfl
    | succ j =>
      simp only [List.set, List.getD_cons_succ]
      exact ih j (by simpa using h)

theorem getD_set_ne (l : List Bool) (i j : Nat) (b : Bool) (h : i ≠ j) :
    (l.set i b).getD j false = l.getD j false := by
  induction l generalizing i j with
  | nil => rfl
  | cons a t ih =>
    cases i with
    | zero =>
      cases j with
      | zero => exact absurd rfl h
      | succ j' => rfl
    | succ i' =>
      cases j with
      | zero => rfl
      | succ j' =>
        simp only [List.set, List.getD_cons_succ]
        exact ih i' j' (fun he => h (by rw [he]))

theorem getD_replicate_false (n i : Nat) :
    (List.replicate n false).getD i false = false := by
  induction n generalizing i with
  | zero => rfl
  | succ n' ih =>
    cases i with
    | zero => rfl
    | succ j => simpa [List.replicate] using ih j

theorem intersect_fold_spec (m : H3Model IX) (s : SpatialIndexM IX)
    (detailed_check : IX → Bool) :
    ∀ (entries : List (RatRect × Nat)) (mask : List Bool),
      (∀ e ∈ entries, e.2 < mask.length) →
      ((entries.foldl
          (fun mask e =>
            match s.array.get m e.2 with
            | some value =>
              if !(mask.getD e.2 false) && detailed_check value then mask.set e.2 true
              else mask
            | none => mask)
          mask).length = mask.length)
      ∧ ∀ i,
          (entries.foldl
            (fun mask e =>
              match s.array.get m e.2 with
              | some value =>
                if !(mask.getD e.2 false) && detailed_check value then mask.set e.2 true
                else mask
              | none => mask)
            mask).getD i false =
          (mask.getD i false ||
            entries.any (fun e => decide (e.2 = i) && entryHit m s detailed_check e)) := by
  intro entries
  induction entries with
  | nil =>
    intro mask _
    simp
  | cons e rest ih =>
    intro mask hb
    have hel : e.2 < mask.length := hb e (List.mem_cons_self _ _)
    simp only [List.foldl_cons]
    have hstep :
        ∀ i, (match s.array.get m e.2 with
            | some value =>
              if !(mask.getD e.2 false) && detailed_check value then mask.set e.2 true
              else mask
            | none => mask).getD i false =
          (mask.getD i false || (decide (e.2 = i) && entryHit m s detailed_check e)) := by
      intro i
      cases hget : s.array.get m e.2 with
      | none =>
        simp [entryHit, hget]
      | some value =>
        simp only [entryHit, hget]
        by_cases hmv : mask.getD e.2 false
        · have hcond : (!(mask.getD e.2 false) && detailed_check value) = false := by
            rw [hmv]; rfl
          rw [hcond, if_neg Bool.false_ne_true]
          by_cases hie : e.2 = i
          · subst hie
            rw [hmv, Bool.true_or]
          · rw [decide_eq_false hie, Bool.false_and, Bool.or_false]
        · rw [Bool.not_eq_true] at hmv
          by_cases hchk : detailed_check value
          · have hcond : (!(mask.getD e.2 false) && detailed_check value) = true := by
              rw [hmv, hchk]; rfl
            rw [hcond, if_pos rfl]
            by_cases hie : e.2 = i
            · subst hie
              rw [getD_set_self _ _ _ hel, hmv, hchk, Bool.false_or]
              simp
            · rw [getD_set_ne _ _ _ _ hie, decide_eq_false hie, Bool.false_and, Bool.or_false]
          · rw [Bool.not_eq_true] at hchk
            have hcond : (!(mask.getD e.2 false) && detailed_check value) = false := by
              rw [hmv, hchk]; rfl
            rw [hcond, if_neg Bool.false_ne_true]
            rw [hchk, Bool.and_false, Bool.or_false]
    have hsteplen :
        (match s.array.get m e.2 with
          | some value =>
            if !(mask.getD e.2 false) && detailed_check value then mask.set e.2 true
            else mask
          | none => mask).length = mask.length := by
      cases s.array.get m e.2 with
      | none => rfl
      | some value =>
        split
        · split <;> simp
        · rfl
    have hbr : ∀ e2 ∈ rest, e2.2 <
        (match s.array.get m e.2 with
          | some value =>
            if !(mask.getD e.2 false) && detailed_check value then mask.set e.2 true
            else mask
          | none => mask).length := by
      intro e2 he2
      rw [hsteplen]
      exact hb e2 (List.mem_cons_of_mem _ he2)
    obtain ⟨ihlen, ihget⟩ := ih _ hbr
    constructor
    · rw [ihlen, hsteplen]
    · intro i
      rw [ihget i, hstep i]
      simp [Bool.or_assoc]

end SpatialLemmas

section SpatialLemmas2

variable {IX P G : Type}

theorem set_fold_spec :
    ∀ (entries : List (RatRect × Nat)) (mask : List Bool),
      (∀ e ∈ entries, e.2 < mask.length) →
      ((entries.foldl (fun mask e => mask.set e.2 true) mask).length = mask.length)
      ∧ ∀ i, (entries.foldl (fun mask e => mask.set e.2 true) mask).getD i false =
          (mask.getD i false || entries.any (fun e => decide (e.2 = i))) := by
  intro entries
  induction entries with
  | nil =>
    intro mask _
    simp
  | cons e rest ih =>
    intro mask hb
    have hel : e.2 < mask.length := hb e (List.mem_cons_self _ _)
    simp only [List.foldl_cons]
    have hbr : ∀ e2 ∈ rest, e2.2 < (mask.set e.2 true).length := by
      intro e2 he2
      rw [List.length_set]
      exact hb e2 (List.mem_cons_of_mem _ he2)
    obtain ⟨ihlen, ihget⟩ := ih _ hbr
    constructor
    · rw [ihlen, List.length_set]
    · intro i
      rw [ihget i]
      have hstep : (mask.set e.2 true).getD i false =
          (mask.getD i false || decide (e.2 = i)) := by
        by_cases hie : e.2 = i
        · subst hie
          rw [getD_set_self _ _ _ hel]
          simp
        · rw [getD_set_ne _ _ _ _ hie, decide_eq_false hie, Bool.or_false]
      rw [hstep]
      simp [Bool.or_assoc]

theorem spatialIndexFrom_entries_mem (m : H3Model IX) (g : GeomModel IX P)
    (array : H3Array IX) (r : RatRect) (i : Nat)
    (h : (r, i) ∈ (spatialIndexFrom m g array).entries) :
    ∃ ix, (array.iter m).get? i = some (some ix) ∧ g.spatial_index_rect ix = some r := by
  unfold spatialIndexFrom at h
  simp only [List.mem_filterMap] at h
  obtain ⟨pe, hpe, hmap⟩ := h
  cases hv : pe.2 with
  | none => rw [hv] at hmap; cases hmap
  | some ix =>
    rw [hv] at hmap
    dsimp only at hmap
    cases hr : g.spatial_index_rect ix with
    | none => rw [hr] at hmap; cases hmap
    | some rect =>
      rw [hr] at hmap
      simp only [Option.map_some'] at hmap
      cases hmap
      refine ⟨ix, ?_, hr⟩
      have := List.mem_enum_iff_get?.mp hpe
      rw [← hv, ← this]

theorem spatialIndexFrom_entries_bounded (m : H3Model IX) (g : GeomModel IX P)
    (array : H3Array IX) :
    ∀ e ∈ (spatialIndexFrom m g array).entries, e.2 < array.len := by
  intro e he
  obtain ⟨ix, hix, _⟩ := spatialIndexFrom_entries_mem m g array e.1 e.2 he
  have := (List.get?_eq_some.mp hix).1
  simpa [H3Array.iter, H3Array.len] using this

end SpatialLemmas2

section SpatialLemmas3

variable {IX P G : Type}

theorem intersect_impl_getD (m : H3Model IX) (s : SpatialIndexM IX) (rect : RatRect)
    (mask : List Bool) (detailed_check : IX → Bool)
    (hb : ∀ e ∈ s.entries, e.2 < mask.length) :
    (intersect_impl m s rect mask detailed_check).length = mask.length ∧
    ∀ i, (intersect_impl m s rect mask detailed_check).getD i false =
      (mask.getD i false ||
        (s.entries.filter (fun e => aabbIntersects e.1 rect)).any
          (fun e => decide (e.2 = i) && entryHit m s detailed_check e)) :=
  intersect_fold_spec m s detailed_check _ mask
    (fun e he => hb e (List.mem_filter.mp he).1)

theorem intersect_polygon_spec (m : H3Model IX) (g : GeomModel IX P)
    (s : SpatialIndexM IX) (poly : P)
    (hb : ∀ e ∈ s.entries, e.2 < s.array.len) :
    (intersect_polygon m g s poly).length = s.array.len ∧
    ∀ i, (intersect_polygon m g s poly).getD i false = polyHit m g s poly i := by
  unfold intersect_polygon polyHit
  cases g.polyBoundingRect poly with
  | none =>
    constructor
    · simp [negative_mask]
    · intro i
      exact getD_replicate_false _ _
  | some poly_rect =>
    have hb2 : ∀ e ∈ s.entries, e.2 < (negative_mask s.array.len).length := by
      intro e he
      simpa [negative_mask] using hb e he
    obtain ⟨hlen, hget⟩ := intersect_impl_getD m s poly_rect (negative_mask s.array.len)
      (fun ix => g.intersects_with_polygon ix poly) hb2
    constructor
    · rw [hlen]; simp [negative_mask]
    · intro i
      rw [hget i]
      unfold negative_mask
      rw [getD_replicate_false, Bool.false_or]

theorem multi_fold_spec (m : H3Model IX) (g : GeomModel IX P) (s : SpatialIndexM IX)
    (hb : ∀ e ∈ s.entries, e.2 < s.array.len) :
    ∀ (mpoly : List P) (mask : List Bool), mask.length = s.array.len →
      ((mpoly.foldl
          (fun mask poly =>
            match g.polyBoundingRect poly with
            | some poly_rect =>
              intersect_impl m s poly_rect mask (fun ix => g.intersects_with_polygon ix poly)
            | none => mask)
          mask).length = s.array.len)
      ∧ ∀ i, (mpoly.foldl
            (fun mask poly =>
              match g.polyBoundingRect poly with
              | some poly_rect =>
                intersect_impl m s poly_rect mask (fun ix => g.intersects_with_polygon ix poly)
              | none => mask)
            mask).getD i false =
          (mask.getD i false || mpoly.any (fun p => polyHit m g s p i)) := by
  intro mpoly
  induction mpoly with
  | nil =>
    intro mask hm
    exact ⟨hm, fun i => by simp⟩
  | cons p rest ih =>
    intro mask hm
    simp only [List.foldl_cons]
    have hstep : ∀ mask2 : List Bool, mask2.length = s.array.len →
        ((match g.polyBoundingRect p with
          | some poly_rect =>
            intersect_impl m s poly_rect mask2 (fun ix => g.intersects_with_polygon ix p)
          | none => mask2).length = s.array.len
        ∧ ∀ i, (match g.polyBoundingRect p with
            | some poly_rect =>
              intersect_impl m s poly_rect mask2 (fun ix => g.intersects_with_polygon ix p)
            | none => mask2).getD i false =
          (mask2.getD i false || polyHit m g s p i)) := by
      intro mask2 hm2
      cases hbr : g.polyBoundingRect p with
      | none =>
        refine ⟨hm2, fun i => ?_⟩
        unfold polyHit
        rw [hbr, Bool.or_false]
      | some poly_rect =>
        have hb2 : ∀ e ∈ s.entries, e.2 < mask2.length := by
          rw [hm2]; exact hb
        obtain ⟨hlen, hget⟩ := intersect_impl_getD m s poly_rect mask2
          (fun ix => g.intersects_with_polygon ix p) hb2
        refine ⟨by rw [hlen, hm2], fun i => ?_⟩
        rw [hget i]
        unfold polyHit
        rw [hbr]
    obtain ⟨hslen, hsget⟩ := hstep mask hm
    obtain ⟨ihlen, ihget⟩ := ih _ hslen
    refine ⟨ihlen, fun i => ?_⟩
    rw [ihget i, hsget i]
    simp [Bool.or_assoc]

theorem intersect_multipolygon_spec (m : H3Model IX) (g : GeomModel IX P)
    (s : SpatialIndexM IX) (mpoly : List P)
    (hb : ∀ e ∈ s.entries, e.2 < s.array.len) :
    (intersect_multipolygon m g s mpoly).length = s.array.len ∧
    ∀ i, (intersect_multipolygon m g s mpoly).getD i false =
      mpoly.any (fun p => polyHit m g s p i) := by
  unfold intersect_multipolygon
  obtain ⟨hlen, hget⟩ := multi_fold_spec m g s hb mpoly (negative_mask s.array.len)
    (by simp [negative_mask])
  refine ⟨hlen, fun i => ?_⟩
  rw [hget i]
  unfold negative_mask
  rw [getD_replicate_false, Bool.false_or]

theorem envelopes_within_distance_spec (m : H3Model IX) (s : SpatialIndexM IX)
    (coord : RatCoord) (distance : ℚ)
    (hb : ∀ e ∈ s.entries, e.2 < s.array.len) :
    (envelopes_within_distance m s coord distance).length = s.array.len ∧
    ∀ i, (envelopes_within_distance m s coord distance).getD i false =
      (s.entries.filter (fun e => decide (nearestDist2 coord e.1 ≤ distance))).any
        (fun e => decide (e.2 = i)) := by
  unfold envelopes_within_distance
  have hb2 : ∀ e ∈ s.entries.filter (fun e => decide (nearestDist2 coord e.1 ≤ distance)),
      e.2 < (negative_mask s.array.len).length := by
    intro e he
    simpa [negative_mask] using hb e (List.mem_filter.mp he).1
  obtain ⟨hlen, hget⟩ := set_fold_spec _ (negative_mask s.array.len) hb2
  refine ⟨by rw [hlen]; simp [negative_mask], fun i => ?_⟩
  rw [hget i]
  unfold negative_mask
  rw [getD_replicate_false, Bool.false_or]

theorem intersect_envelopes_spec (m : H3Model IX) (s : SpatialIndexM IX) (rect : RatRect)
    (hb : ∀ e ∈ s.entries, e.2 < s.array.len) :
    (intersect_envelopes m s rect).length = s.array.len ∧
    ∀ i, (intersect_envelopes m s rect).getD i false =
      (s.entries.filter (fun e => aabbIntersects e.1 rect)).any
        (fun e => decide (e.2 = i) && entryHit m s (fun _ => true) e) := by
  unfold intersect_envelopes
  have hb2 : ∀ e ∈ s.entries, e.2 < (negative_mask s.array.len).length := by
    intro e he
    simpa [negative_mask] using hb e he
  obtain ⟨hlen, hget⟩ := intersect_impl_getD m s rect (negative_mask s.array.len)
    (fun _ => true) hb2
  refine ⟨by rw [hlen]; simp [negative_mask], fun i => ?_⟩
  rw [hget i]
  unfold negative_mask
  rw [getD_replicate_false, Bool.false_or]

end SpatialLemmas3

/-- Claim C7: over a column of length N (including N = 0) each of the four
query operations returns a mask of exactly length N; every position never
inserted into the R-tree has a false mask bit; and null positions as well
as positions whose geometry yields no bounding rectangle are never
inserted into the tree. -/
theorem claim_C7 {IX P : Type} (m : H3Model IX) (g : GeomModel IX P) (array : H3Array IX)
    (rect : RatRect) (poly : P) (mpoly : List P) (coord : RatCoord) (distance : ℚ) :
    ((intersect_envelopes m (spatialIndexFrom m g array) rect).length = array.len
      ∧ (intersect_polygon m g (spatialIndexFrom m g array) poly).length = array.len
      ∧ (intersect_multipolygon m g (spatialIndexFrom m g array) mpoly).length = array.len
      ∧ (envelopes_within_distance m (spatialIndexFrom m g array) coord distance).length
          = array.len)
    ∧ (∀ i, (∀ r, (r, i) ∉ (spatialIndexFrom m g array).entries) →
        (intersect_envelopes m (spatialIndexFrom m g array) rect).getD i false = false
        ∧ (intersect_polygon m g (spatialIndexFrom m g array) poly).getD i false = false
        ∧ (intersect_multipolygon m g (spatialIndexFrom m g array) mpoly).getD i false = false
        ∧ (envelopes_within_distance m (spatialIndexFrom m g array) coord distance).getD i false
            = false)
    ∧ (∀ i, ((array.iter m).get? i = some none
          ∨ ∃ ix, (array.iter m).get? i = some (some ix) ∧ g.spatial_index_rect ix = none) →
        ∀ r, (r, i) ∉ (spatialIndexFrom m g array).entries) := by
  have hb := spatialIndexFrom_entries_bounded m g array
  have harr : (spatialIndexFrom m g array).array = array := rfl
  have hb2 : ∀ e ∈ (spatialIndexFrom m g array).entries,
      e.2 < (spatialIndexFrom m g array).array.len := hb
  obtain ⟨henvl, henvg⟩ := intersect_envelopes_spec m (spatialIndexFrom m g array) rect hb2
  obtain ⟨hpl, hpg⟩ := intersect_polygon_spec m g (spatialIndexFrom m g array) poly hb2
  obtain ⟨hml, hmg⟩ := intersect_multipolygon_spec m g (spatialIndexFrom m g array) mpoly hb2
  obtain ⟨hdl, hdg⟩ := envelopes_within_distance_spec m (spatialIndexFrom m g array)
    coord distance hb2
  refine ⟨⟨henvl, hpl, hml, hdl⟩, ?_, ?_⟩
  · intro i hni
    have hanyfalse : ∀ (f : RatRect × Nat → Bool) (chk : IX → Bool),
        ((spatialIndexFrom m g array).entries.filter f).any
          (fun e => decide (e.2 = i) && entryHit m (spatialIndexFrom m g array) chk e)
          = false := by
      intro f chk
      rw [List.any_eq_false]
      intro e he
      have hmem := (List.mem_filter.mp he).1
      have hne : e.2 ≠ i := by
        intro hei
        exact hni e.1 (by
          have : e = (e.1, i) := by
            rw [← hei]
          rw [← this]
          exact hmem)
      simp [hne]
    have hanyfalse2 : ∀ (f : RatRect × Nat → Bool),
        ((spatialIndexFrom m g array).entries.filter f).any
          (fun e => decide (e.2 = i)) = false := by
      intro f
      rw [List.any_eq_false]
      intro e he
      have hmem := (List.mem_filter.mp he).1
      have hne : e.2 ≠ i := by
        intro hei
        exact hni e.1 (by
          have : e = (e.1, i) := by
            rw [← hei]
          rw [← this]
          exact hmem)
      simp [hne]
    refine ⟨?_, ?_, ?_, ?_⟩
    · rw [henvg i]
      exact hanyfalse _ _
    · rw [hpg i]
      unfold polyHit
      cases g.polyBoundingRect poly with
      | none => rfl
      | some pr => exact hanyfalse _ _
    · rw [hmg i]
      rw [List.any_eq_false]
      intro p hp
      unfold polyHit
      cases g.polyBoundingRect p with
      | none => simp
      | some pr => simp [hanyfalse _ _]
    · rw [hdg i]
      exact hanyfalse2 _
  · intro i hcase r hmem
    obtain ⟨ix, hix, hrect⟩ := spatialIndexFrom_entries_mem m g array r i hmem
    rcases hcase with h1 | ⟨ix2, hix2, hr2⟩
    · rw [h1] at hix
      cases hix
    · rw [hix2] at hix
      cases hix
      rw [hr2] at hrect
      cases hrect

section TracedLemmas

variable {IX P : Type}

theorem traced_fold_spec (m : H3Model IX) (s : SpatialIndexM IX)
    (detailed_check : IX → Bool) :
    ∀ (entries : List (RatRect × Nat)) (mask : List Bool) (tested : List Nat),
      ((entries.foldl
          (fun mt e =>
            match s.array.get m e.2 with
            | some value =>
              if !(mt.1.getD e.2 false) then
                (if detailed_check value then mt.1.set e.2 true else mt.1, mt.2 ++ [e.2])
              else mt
            | none => mt)
          (mask, tested)).1 =
        entries.foldl
          (fun mask e =>
            match s.array.get m e.2 with
            | some value =>
              if !(mask.getD e.2 false) && detailed_check value then mask.set e.2 true
              else mask
            | none => mask)
          mask)
      ∧ ∀ pos, pos ∈ (entries.foldl
          (fun mt e =>
            match s.array.get m e.2 with
            | some value =>
              if !(mt.1.getD e.2 false) then
                (if detailed_check value then mt.1.set e.2 true else mt.1, mt.2 ++ [e.2])
              else mt
            | none => mt)
          (mask, tested)).2 →
        pos ∈ tested ∨ mask.getD pos false = false := by
  intro entries
  induction entries with
  | nil =>
    intro mask tested
    exact ⟨rfl, fun pos h => Or.inl h⟩
  | cons e rest ih =>
    intro mask tested
    simp only [List.foldl_cons]
    have hmono : ∀ (mask2 : List Bool) (j pos : Nat), mask.getD pos false = true →
        mask2 = mask.set j true → mask2.getD pos false = true := by
      intro mask2 j pos hp hm2
      subst hm2
      by_cases hjp : j = pos
      · subst hjp
        by_cases hlt : j < mask.length
        · rw [getD_set_self _ _ _ hlt]
        · rw [List.set_eq_of_length_le (by omega)]
          exact hp
      · rw [getD_set_ne _ _ _ _ hjp]
        exact hp
    cases hget : s.array.get m e.2 with
    | none =>
      exact ih mask tested
    | some value =>
      dsimp only
      by_cases hmv : mask.getD e.2 false
      · have hcond2 : (!(mask.getD e.2 false) && detailed_check value) = false := by
          rw [hmv]; rfl
        rw [hcond2]
        have hcond : (!(mask.getD e.2 false)) = false := by rw [hmv]; rfl
        rw [hcond]
        simp only [if_neg Bool.false_ne_true]
        exact ih mask tested
      · rw [Bool.not_eq_true] at hmv
        have hcond2 : (!(mask.getD e.2 false) && detailed_check value)
            = detailed_check value := by
          rw [hmv]
          exact Bool.true_and _
        rw [hcond2]
        have hcond : (!(mask.getD e.2 false)) = true := by rw [hmv]; rfl
        rw [hcond]
        simp only [if_pos rfl]
        by_cases hchk : detailed_check value
        · rw [hchk]
          simp only [if_pos rfl]
          obtain ⟨ih1, ih2⟩ := ih (mask.set e.2 true) (tested ++ [e.2])
          refine ⟨ih1, ?_⟩
          intro pos hpos
          rcases ih2 pos hpos with hin | hfalse
          · rcases List.mem_append.mp hin with hin | hin
            · exact Or.inl hin
            · simp only [List.mem_singleton] at hin
              subst hin
              exact Or.inr hmv
          · right
            by_cases hp : mask.getD pos false
            · exact absurd (hmono _ e.2 pos hp rfl) (by rw [hfalse]; exact Bool.false_ne_true)
            · rw [Bool.not_eq_true] at hp
              exact hp
        · rw [Bool.not_eq_true] at hchk
          rw [hchk]
          simp only [if_neg Bool.false_ne_true]
          obtain ⟨ih1, ih2⟩ := ih mask (tested ++ [e.2])
          refine ⟨ih1, ?_⟩
          intro pos hpos
          rcases ih2 pos hpos with hin | hfalse
          · rcases List.mem_append.mp hin with hin | hin
            · exact Or.inl hin
            · simp only [List.mem_singleton] at hin
              subst hin
              exact Or.inr hmv
          · exact Or.inr hfalse

theorem intersect_impl_traced_fst (m : H3Model IX) (s : SpatialIndexM IX) (rect : RatRect)
    (mask : List Bool) (detailed_check : IX → Bool) :
    (intersect_impl_traced m s rect mask detailed_check).1 =
      intersect_impl m s rect mask detailed_check :=
  (traced_fold_spec m s detailed_check _ mask []).1

theorem intersect_impl_traced_tested (m : H3Model IX) (s : SpatialIndexM IX)
    (rect : RatRect) (mask : List Bool) (detailed_check : IX → Bool) (pos : Nat)
    (h : pos ∈ (intersect_impl_traced m s rect mask detailed_check).2) :
    mask.getD pos false = false := by
  rcases (traced_fold_spec m s detailed_check _ mask []).2 pos h with hin | hfalse
  · cases hin
  · exact hfalse

end TracedLemmas

section TracedMultiLemmas

variable {IX P : Type}

theorem tmfold_append (m : H3Model IX) (g : GeomModel IX P) (s : SpatialIndexM IX) :
    ∀ (polys : List P) (mask : List Bool) (t1 t2 : List (List Nat)),
      polys.foldl (tmStep m g s) (mask, t1 ++ t2) =
        ((polys.foldl (tmStep m g s) (mask, t2)).1,
          t1 ++ (polys.foldl (tmStep m g s) (mask, t2)).2) := by
  intro polys
  induction polys with
  | nil =>
    intro mask t1 t2
    rfl
  | cons p rest ih =>
    intro mask t1 t2
    simp only [List.foldl_cons]
    unfold tmStep
    cases hbr : g.polyBoundingRect p with
    | none =>
      dsimp only
      rw [List.append_assoc]
      exact ih mask t1 (t2 ++ [[]])
    | some poly_rect =>
      dsimp only
      rw [List.append_assoc]
      exact ih _ t1 (t2 ++ [_])

theorem traced_multi_spec (m : H3Model IX) (g : GeomModel IX P) (s : SpatialIndexM IX) :
    ∀ (polys : List P) (mask : List Bool) (tl : List (List Nat)),
      ((polys.foldl (tmStep m g s) (mask, tl)).1 = multiFoldFrom m g s polys mask)
      ∧ ∀ k t pos,
          ((polys.foldl (tmStep m g s) (mask, tl)).2).get? (tl.length + k) = some t →
          pos ∈ t →
          (multiFoldFrom m g s (polys.take k) mask).getD pos false = false := by
  intro polys
  induction polys with
  | nil =>
    intro mask tl
    refine ⟨rfl, ?_⟩
    intro k t pos hget
    simp only [List.foldl_nil] at hget
    rw [List.get?_eq_none.mpr (by omega)] at hget
    cases hget
  | cons p rest ih =>
    intro mask tl
    simp only [List.foldl_cons]
    cases hbr : g.polyBoundingRect p with
    | none =>
      have hstep : tmStep m g s (mask, tl) p = (mask, tl ++ [[]]) := by
        unfold tmStep
        rw [hbr]
      rw [hstep]
      obtain ⟨ih1, ih2⟩ := ih mask (tl ++ [[]])
      constructor
      · rw [ih1]
        unfold multiFoldFrom
        simp only [List.foldl_cons, hbr]
      · intro k t pos hget hpos
        cases k with
        | zero =>
          have happ := congrArg Prod.snd
            (tmfold_append m g s rest mask (tl ++ [[]]) [])
          simp only [List.append_nil] at happ
          rw [happ] at hget
          rw [List.append_assoc, List.singleton_append] at hget
          rw [List.get?_append_right (by omega)] at hget
          have hidx : tl.length + 0 - tl.length = 0 := by omega
          rw [hidx] at hget
          simp only [List.get?] at hget
          cases hget
          cases hpos
        | succ k' =>
          have hre := ih2 k' t pos
          have hlen2 : (tl ++ [([] : List Nat)]).length + k' = tl.length + (k' + 1) := by
            simp
            omega
          rw [hlen2] at hre
          have hc := hre hget hpos
          unfold multiFoldFrom at hc ⊢
          simp only [List.take_succ_cons, List.foldl_cons, hbr]
          exact hc
    | some poly_rect =>
      have hstep : tmStep m g s (mask, tl) p =
          ((intersect_impl_traced m s poly_rect mask
              (fun ix => g.intersects_with_polygon ix p)).1,
            tl ++ [(intersect_impl_traced m s poly_rect mask
              (fun ix => g.intersects_with_polygon ix p)).2]) := by
        unfold tmStep
        rw [hbr]
      rw [hstep]
      obtain ⟨ih1, ih2⟩ := ih
        (intersect_impl_traced m s poly_rect mask
          (fun ix => g.intersects_with_polygon ix p)).1
        (tl ++ [(intersect_impl_traced m s poly_rect mask
          (fun ix => g.intersects_with_polygon ix p)).2])
      constructor
      · rw [ih1]
        unfold multiFoldFrom
        simp only [List.foldl_cons, hbr]
        rw [intersect_impl_traced_fst]
      · intro k t pos hget hpos
        cases k with
        | zero =>
          have happ := congrArg Prod.snd
            (tmfold_append m g s rest
              (intersect_impl_traced m s poly_rect mask
                (fun ix => g.intersects_with_polygon ix p)).1
              (tl ++ [(intersect_impl_traced m s poly_rect mask
                (fun ix => g.intersects_with_polygon ix p)).2]) [])
          simp only [List.append_nil] at happ
          rw [happ] at hget
          rw [List.append_assoc, List.singleton_append] at hget
          rw [List.get?_append_right (by omega)] at hget
          have hidx : tl.length + 0 - tl.length = 0 := by omega
          rw [hidx] at hget
          simp only [List.get?] at hget
          cases hget
          have hfalse := intersect_impl_traced_tested m s poly_rect mask
            (fun ix => g.intersects_with_polygon ix p) pos hpos
          unfold multiFoldFrom
          simp only [List.take_zero, List.foldl_nil]
          exact hfalse
        | succ k' =>
          have hre := ih2 k' t pos
          have hlen2 : (tl ++ [(intersect_impl_traced m s poly_rect mask
              (fun ix => g.intersects_with_polygon ix p)).2]).length + k'
              = tl.length + (k' + 1) := by
            simp
            omega
          rw [hlen2] at hre
          have hc := hre hget hpos
          unfold multiFoldFrom at hc ⊢
          simp only [List.take_succ_cons, List.foldl_cons, hbr]
          rw [← intersect_impl_traced_fst m s poly_rect mask
            (fun ix => g.intersects_with_polygon ix p)]
          exact hc

end TracedMultiLemmas

/-- Claim C8: the multipolygon mask equals the position-wise logical OR of
the per-polygon intersect_polygon masks; the traced run computes the same
mask; every position stage-2-tested during polygon k's pass is still false
in the mask accumulated over the earlier polygons (so a position set true
by an earlier polygon is never re-tested); and the mask is monotone along
the polygon prefix (a bit set true is never cleared by later polygons). -/
theorem claim_C8 {IX P : Type} (m : H3Model IX) (g : GeomModel IX P)
    (array : H3Array IX) (mpoly : List P) :
    (∀ i, (intersect_multipolygon m g (spatialIndexFrom m g array) mpoly).getD i false =
        mpoly.any (fun p =>
          (intersect_polygon m g (spatialIndexFrom m g array) p).getD i false))
    ∧ (intersect_multipolygon_traced m g (spatialIndexFrom m g array) mpoly).1 =
        intersect_multipolygon m g (spatialIndexFrom m g array) mpoly
    ∧ (∀ k t pos,
        (intersect_multipolygon_traced m g (spatialIndexFrom m g array) mpoly).2.get? k
            = some t →
        pos ∈ t →
        (intersect_multipolygon m g (spatialIndexFrom m g array) (mpoly.take k)).getD
            pos false = false)
    ∧ ∀ i k k', k ≤ k' →
        (intersect_multipolygon m g (spatialIndexFrom m g array) (mpoly.take k)).getD
            i false = true →
        (intersect_multipolygon m g (spatialIndexFrom m g array) (mpoly.take k')).getD
            i false = true := by
  have hb : ∀ e ∈ (spatialIndexFrom m g array).entries,
      e.2 < (spatialIndexFrom m g array).array.len :=
    spatialIndexFrom_entries_bounded m g array
  have hmulti : ∀ (polys : List P) (i : Nat),
      (intersect_multipolygon m g (spatialIndexFrom m g array) polys).getD i false =
        polys.any (fun p => polyHit m g (spatialIndexFrom m g array) p i) :=
    fun polys i => (intersect_multipolygon_spec m g (spatialIndexFrom m g array) polys hb).2 i
  refine ⟨?_, ?_, ?_, ?_⟩
  · intro i
    rw [hmulti mpoly i]
    have hfun : (fun p => polyHit m g (spatialIndexFrom m g array) p i)
        = fun p => (intersect_polygon m g (spatialIndexFrom m g array) p).getD i false := by
      funext p
      rw [(intersect_polygon_spec m g (spatialIndexFrom m g array) p hb).2 i]
    rw [hfun]
  · exact (traced_multi_spec m g (spatialIndexFrom m g array) mpoly
      (negative_mask (spatialIndexFrom m g array).array.len) []).1
  · intro k t pos hget hpos
    have := (traced_multi_spec m g (spatialIndexFrom m g array) mpoly
      (negative_mask (spatialIndexFrom m g array).array.len) []).2 k t pos
    rw [show (([] : List (List Nat)).length + k) = k from by simp] at this
    exact this hget hpos
  · intro i k k' hk htrue
    rw [hmulti (mpoly.take k) i] at htrue
    rw [hmulti (mpoly.take k') i]
    rw [List.any_eq_true] at htrue ⊢
    obtain ⟨p, hp, hhit⟩ := htrue
    refine ⟨p, ?_, hhit⟩
    have hsub : mpoly.take k ⊆ mpoly.take k' := by
      have : (mpoly.take k').take k = mpoly.take k := by
        rw [List.take_take]
        congr 1
        omega
      rw [← this]
      exact List.take_subset _ _
    exact hsub hp

/-- Claim C9 (amended): envelopes_within_distance returns a mask of the
column length whose bit i is true iff position i was inserted into the
R-tree and the squared euclidean distance from the query point to the
nearest point of its stored bounding rectangle is at most the distance
argument — a stage-1-only query defined entirely by the stored rectangles
(rstar's locate_within_distance interprets the argument as a maximal
squared radius), with no exact-geometry test. -/
theorem claim_C9 {IX P : Type} (m : H3Model IX) (g : GeomModel IX P)
    (array : H3Array IX) (coord : RatCoord) (distance : ℚ) :
    (envelopes_within_distance m (spatialIndexFrom m g array) coord distance).length
        = array.len
    ∧ ∀ i, (envelopes_within_distance m (spatialIndexFrom m g array) coord
          distance).getD i false = true
        ↔ ∃ r, (r, i) ∈ (spatialIndexFrom m g array).entries
            ∧ nearestDist2 coord r ≤ distance := by
  have hb : ∀ e ∈ (spatialIndexFrom m g array).entries,
      e.2 < (spatialIndexFrom m g array).array.len :=
    spatialIndexFrom_entries_bounded m g array
  obtain ⟨hlen, hget⟩ := envelopes_within_distance_spec m (spatialIndexFrom m g array)
    coord distance hb
  refine ⟨hlen, fun i => ?_⟩
  rw [hget i, List.any_eq_true]
  constructor
  · rintro ⟨e, he, hei⟩
    obtain ⟨hmem, hdist⟩ := List.mem_filter.mp he
    rw [decide_eq_true_eq] at hei
    rw [decide_eq_true_eq] at hdist
    exact ⟨e.1, by rw [← hei]; exact hmem, hdist⟩
  · rintro ⟨r, hmem, hdist⟩
    refine ⟨(r, i), List.mem_filter.mpr ⟨hmem, ?_⟩, by simp⟩
    rw [decide_eq_true_eq]
    exact hdist

/-- Counterexample to claim C9 as stated: the single entry's rectangle has
its nearest point at euclidean distance 2 = sqrt 4 from the origin, within
the queried distance 2 (distance squared 4 is at most 2 squared), yet
envelopes_within_distance with argument 2 leaves the mask bit false,
because the code hands the argument to rstar as a maximal squared radius
and 4 is greater than 2. -/
theorem claim_C9_counterexample :
    (exRect9, 0) ∈ (spatialIndexFrom exModelU exGeom9 exArray1).entries
    ∧ nearestDist2 { x := 0, y := 0 } exRect9 ≤ 2 ^ 2
    ∧ (envelopes_within_distance exModelU (spatialIndexFrom exModelU exGeom9 exArray1)
        { x := 0, y := 0 } 2).getD 0 false = false := by
  have hentries : (spatialIndexFrom exModelU exGeom9 exArray1).entries
      = [(exRect9, 0)] := rfl
  have hd : nearestDist2 { x := 0, y := 0 } exRect9 = 4 := by
    unfold nearestDist2 exRect9
    norm_num
  refine ⟨by rw [hentries]; exact List.mem_singleton_self _, by rw [hd]; norm_num, ?_⟩
  unfold envelopes_within_distance
  rw [hentries]
  have hfilter : ([(exRect9, 0)].filter
      (fun e => decide (nearestDist2 { x := 0, y := 0 } e.1 ≤ 2))) = [] := by
    simp only [List.filter, hd]
    rw [decide_eq_false (by norm_num)]
  rw [hfilter]
  rfl

/-- Claim C1 (amended): the stage-2 test for cells returns the conjunction
of the centroid-in-polygon test and the full polygon/geometry intersection
test (the code performs the full comparison only when the centroid test is
positive and returns false otherwise); it therefore agrees with the full
exact intersection test exactly on inputs where the centroid test is
positive or the full test is negative; consequently intersect_polygon's
mask bit for a tree-resident cell requires the centroid of the cell to
lie inside the polygon in addition to the exact intersection. -/
theorem claim_C1 {IX P G : Type} (cg : CellGeomModel IX P G) (cell : IX) (poly : P) :
    (cellIntersectsWithPolygon cg cell poly
      = (cg.polyIntersectsCoord poly (cg.centroid cell)
          && cg.polyIntersectsGeom poly (cg.to_geom cell)))
    ∧ ((cg.polyIntersectsCoord poly (cg.centroid cell) = true
        ∨ cg.polyIntersectsGeom poly (cg.to_geom cell) = false) →
      cellIntersectsWithPolygon cg cell poly
        = cg.polyIntersectsGeom poly (cg.to_geom cell)) := by
  constructor
  · unfold cellIntersectsWithPolygon
    by_cases hc : cg.polyIntersectsCoord poly (cg.centroid cell)
    · rw [if_pos hc, hc, Bool.true_and]
    · rw [Bool.not_eq_true] at hc
      rw [hc]
      rw [if_neg Bool.false_ne_true, Bool.false_and]
  · intro hcase
    unfold cellIntersectsWithPolygon
    rcases hcase with hc | hg
    · rw [hc]
      rw [if_pos rfl]
    · by_cases hc : cg.polyIntersectsCoord poly (cg.centroid cell)
      · rw [if_pos hc]
      · rw [Bool.not_eq_true] at hc
        rw [hc, if_neg Bool.false_ne_true, hg]

/-- Counterexample to claim C1 as stated: the polygon overlaps the cell's
geometry (full exact test true) but the cell's centroid lies outside it,
so the stage-2 test returns false instead of the full test's true, and the
cell — although resident in the tree and passing the stage-1 bounding-box
overlap — gets a false intersect_polygon mask bit. -/
theorem claim_C1_counterexample :
    cellIntersectsWithPolygon exCellGeom () exPoly1 = false
    ∧ exCellGeom.polyIntersectsGeom exPoly1 (exCellGeom.to_geom ()) = true
    ∧ (({ minX := 0, minY := 0, maxX := 4, maxY := 4 } : RatRect), 0)
        ∈ (spatialIndexFrom exModelU exGeomC1 exArray1).entries
    ∧ aabbIntersects ({ minX := 0, minY := 0, maxX := 4, maxY := 4 } : RatRect) exPoly1
        = true
    ∧ (intersect_polygon exModelU exGeomC1 (spatialIndexFrom exModelU exGeomC1 exArray1)
        exPoly1).getD 0 false = false := by
  refine ⟨by decide, by decide, ?_, by decide, ?_⟩
  · have hentries : (spatialIndexFrom exModelU exGeomC1 exArray1).entries
        = [(({ minX := 0, minY := 0, maxX := 4, maxY := 4 } : RatRect), (0 : Nat))] := rfl
    rw [hentries]
    exact List.mem_singleton_self _
  · decide

theorem exMNat_tryFrom_eq : ∀ v ix, exMNat.tryFromU64 v = some ix → ix = v := by
  intro v ix h
  unfold exMNat at h
  dsimp only at h
  by_cases hv : v < 100
  · rw [if_pos hv] at h
    cases h
    rfl
  · rw [if_neg hv] at h
    cases h

/-- Witness for claim C2: on the toy model the strict construction of
[3, 5] succeeds, with the transmute laws discharged at the input values. -/
theorem claim_C2_witness :
    isOkE (tryFromVecU64 exMNat [3, 5]) = true :=
  ((claim_C2 exMNat [3, 5] [some 7, none]
    (fun v _ ix hix => by rw [exMNat_tryFrom_eq v ix hix]; rfl)
    (fun v _ ix hix => by rw [exMNat_tryFrom_eq v ix hix]; rfl)).1).mpr (by decide)

/-- Witness for claim C3: the paired resolution change of the example
column to resolution 6 yields equal-length before/after columns. -/
theorem claim_C3_witness :
    (exceptGetD (change_resolution_paired exCellModel exCellArr 6)
        { before := { primitive_array := [] }, after := { primitive_array := [] } }).before.len
      = (exceptGetD (change_resolution_paired exCellModel exCellArr 6)
        { before := { primitive_array := [] }, after := { primitive_array := [] } }).after.len :=
  (claim_C3 exCellModel exCellArr 6 (by decide) _ rfl).1

/-- Witness for claim C4: changing the example column (a resolution-5
cell, a null, a resolution-9 cell) to resolution 6 yields exactly
7 + 1 = 8 outputs, the null dropped. -/
theorem claim_C4_witness :
    (exceptGetD (change_resolution exCellModel exCellArr 6)
        { primitive_array := [] }).len =
      ((validCells exCellModel exCellArr).map
        (fun c => (resBlock exCellModel c 6).length)).sum
    ∧ ((validCells exCellModel exCellArr).map
        (fun c => (resBlock exCellModel c 6).length)).sum = 8 :=
  ⟨(claim_C4 exCellModel exCellArr 6 _ rfl).2.2, by decide⟩

/-- Witness for claim C5: a push_valid of zero items reads back as a
valid empty sub-column, a push_invalid as none, and the flat buffer stays
empty. -/
theorem claim_C5_witness :
    (iter_arrays exMNat (((runOps exMNat
        [BuilderOp.push_valid [], BuilderOp.push_invalid]).build).getD
        { offsets := [], values := [], validity := none })).get? 0
      = some (some (Except.ok ({ primitive_array := [] } : H3Array Nat)))
    ∧ (iter_arrays exMNat (((runOps exMNat
        [BuilderOp.push_valid [], BuilderOp.push_invalid]).build).getD
        { offsets := [], values := [], validity := none })).get? 1
      = some none
    ∧ (((runOps exMNat
        [BuilderOp.push_valid [], BuilderOp.push_invalid]).build).getD
        { offsets := [], values := [], validity := none }).values = [] := by
  obtain ⟨l, hbuild, hvals, hlen, hiter⟩ :=
    claim_C5 exMNat [BuilderOp.push_valid ([] : List Nat), BuilderOp.push_invalid]
  rw [hbuild]
  simp only [Option.getD_some]
  refine ⟨(hiter 0 _ rfl).2 rfl, ?_, ?_⟩
  · exact (hiter 1 BuilderOp.push_invalid rfl).1
  · rw [hvals]
    rfl

/-- Witness for claim C6: cell 100 is reached from the two seeds at
distances 3 and 5; the aggregated distance is 3 under Min and 5 under
Max. -/
theorem claim_C6_witness :
    aggIs KAggregationMethod.Min 3 (occurrences exMNat gddEx exArr6 1 100)
    ∧ aggIs KAggregationMethod.Max 5 (occurrences exMNat gddEx exArr6 1 100) :=
  ⟨(claim_C6 exMNat gddEx exArr6 1 KAggregationMethod.Min).2.2 1 100 3 rfl rfl,
   (claim_C6 exMNat gddEx exArr6 1 KAggregationMethod.Max).2.2 1 100 5 rfl rfl⟩

/-- Witness for claim C7: over an empty column all four queries return
empty (length-zero) masks without error, and position 0 — not inserted in
the tree — reads false in each. -/
theorem claim_C7_witness :
    (intersect_envelopes exModelU (spatialIndexFrom exModelU exGeom9 exArrE)
        exRect9).length = exArrE.len
    ∧ (intersect_polygon exModelU exGeom9 (spatialIndexFrom exModelU exGeom9 exArrE)
        ()).getD 0 false = false
    ∧ (intersect_multipolygon exModelU exGeom9 (spatialIndexFrom exModelU exGeom9 exArrE)
        [()]).getD 0 false = false
    ∧ (envelopes_within_distance exModelU (spatialIndexFrom exModelU exGeom9 exArrE)
        { x := 0, y := 0 } 2).getD 0 false = false :=
  ⟨(claim_C7 exModelU exGeom9 exArrE exRect9 () [()] { x := 0, y := 0 } 2).1.1,
   ((claim_C7 exModelU exGeom9 exArrE exRect9 () [()] { x := 0, y := 0 } 2).2.1 0
      (fun r h => absurd h (List.not_mem_nil _))).2.1,
   ((claim_C7 exModelU exGeom9 exArrE exRect9 () [()] { x := 0, y := 0 } 2).2.1 0
      (fun r h => absurd h (List.not_mem_nil _))).2.2.1,
   ((claim_C7 exModelU exGeom9 exArrE exRect9 () [()] { x := 0, y := 0 } 2).2.1 0
      (fun r h => absurd h (List.not_mem_nil _))).2.2.2⟩

/-- Witness for claim C8: with the covering polygon first and the
corner-clipping polygon second, position 0 is set true by the first pass
(so the prefix mask after one polygon is true and stays true after two),
and the first pass's tested list contains position 0 while the mask before
that pass (the empty prefix) is false there. -/
theorem claim_C8_witness :
    (intersect_multipolygon exModelU exGeomC1
        (spatialIndexFrom exModelU exGeomC1 exArray1)
        (([exPolyAll, exPoly1].take 0))).getD 0 false = false
    ∧ (intersect_multipolygon exModelU exGeomC1
        (spatialIndexFrom exModelU exGeomC1 exArray1)
        (([exPolyAll, exPoly1].take 2))).getD 0 false = true :=
  ⟨(claim_C8 exModelU exGeomC1 exArray1 [exPolyAll, exPoly1]).2.2.1 0 [0] 0
      (by decide) (by decide),
   (claim_C8 exModelU exGeomC1 exArray1 [exPolyAll, exPoly1]).2.2.2 0 1 2
      (by decide) (by decide)⟩

/-- Witness for claim C9 (amended): with squared-distance bound 5 the
single entry (nearest-point squared distance 4) is located and its mask
bit set. -/
theorem claim_C9_witness :
    (envelopes_within_distance exModelU (spatialIndexFrom exModelU exGeom9 exArray1)
        { x := 0, y := 0 } 5).getD 0 false = true :=
  ((claim_C9 exModelU exGeom9 exArray1 { x := 0, y := 0 } 5).2 0).mpr
    ⟨exRect9, by
      have hentries : (spatialIndexFrom exModelU exGeom9 exArray1).entries
          = [(exRect9, 0)] := rfl
      rw [hentries]
      exact List.mem_singleton_self _,
    by
      have hd : nearestDist2 { x := 0, y := 0 } exRect9 = 4 := by
        unfold nearestDist2 exRect9
        norm_num
      rw [hd]
      norm_num⟩

/-- Witness for claim C10: on the toy cell hierarchy both operations
return Ok for the example column, with the validity-preservation laws
discharged on the cells involved. -/
theorem claim_C10_witness :
    isOkE (change_resolution exCellModel exCellArr 6) = true
    ∧ isOkE (change_resolution_paired exCellModel exCellArr 6) = true := by
  obtain ⟨⟨out, hout, _⟩, ⟨p, hp, _⟩⟩ := claim_C10 exCellModel exCellArr 6 (by decide)
  rw [hout, hp]
  exact ⟨rfl, rfl⟩

/-- Witness for claim C1 (amended): on a polygon containing the centroid
the stage-2 test agrees with the full exact intersection test. -/
theorem claim_C1_witness :
    cellIntersectsWithPolygon exCellGeom () exPolyAll
      = exCellGeom.polyIntersectsGeom exPolyAll (exCellGeom.to_geom ()) :=
  (claim_C1 exCellGeom () exPolyAll).2 (Or.inl (by decide))
